import Mathlib

/-!
Verification development for the anchor-escrow program
(`programs/escrow/src`): the `make`, `take` and `refund` instructions, their
Anchor account constraints, and the SPL-token transfers they perform, are
shallowly embedded as pure functions over an explicit chain state.

Modelling conventions:
* `Pubkey` is either a user key (able to sign transactions) or a program
  derived address; `Pubkey.derived maker seed` stands for
  `find_program_address([b"escrow", maker, seed_le], program_id)`, which is
  injective in `(maker, seed)` exactly as the on-chain derivation is
  collision free.  The canonical bump byte plays no role in any claim and is
  abstracted as a constant stored in the record, as the source stores
  `bumps.escrow`.
* Associated token accounts are keyed by `(authority, mint)`, mirroring the
  `associated_token::mint`/`associated_token::authority` constraints under
  which every token account in this program is addressed.
* Balances and lamports are `Nat`; the SPL `u64` arithmetic is made explicit
  by the `UMAX` bound checked by `transferChecked` on the destination, as
  `spl_token`'s `checked_add` does.
* Each instruction returns `Except Err Chain`: Solana transactions commit
  atomically, so a failing instruction persists no state at all.  The checks
  appear in the order Anchor evaluates the account constraints (declaration
  order of the `#[derive(Accounts)]` struct) followed by the handler body.
-/

/-- Public keys: user-held keys (which can sign) and the escrow program's
derived addresses `find_program_address([b"escrow", maker, seed])`. -/
inductive Pubkey where
  | user : Nat → Pubkey
  | derived : Pubkey → Nat → Pubkey
deriving DecidableEq

/-- Whether a key is a user key, i.e. can be a transaction signer.  Program
derived addresses are off-curve and can never sign a transaction. -/
def Pubkey.isUser : Pubkey → Bool
  | .user _ => true
  | .derived _ _ => false

/-- The derivation of the escrow record's address from
`[b"escrow", maker.key(), seed.to_le_bytes()]` (make.rs, take.rs, refund.rs). -/
def deriveEscrowAddr (maker : Pubkey) (seed : Nat) : Pubkey :=
  Pubkey.derived maker seed

/-- The canonical bump byte returned by the address derivation; it is stored
in the record (`bumps.escrow` in `save_escrow`) and plays no further role in
the model, where the derivation is injective by construction. -/
def canonicalBump : Nat := 255

/-- State of the `Escrow` account (state/escrow.rs). -/
structure Escrow where
  seed : Nat
  maker : Pubkey
  mint_a : Pubkey
  mint_b : Pubkey
  receive : Nat
  bump : Nat
deriving DecidableEq

/-- Rejection outcomes of the three instructions: Anchor constraint
violations, SPL token program failures, and system program failures. -/
inductive Err where
  | missingSignature
  | accountNotInitialized
  | alreadyExists
  | insufficientLamports
  | insufficientFunds
  | overflow
  | constraintHasOne
  | constraintSeeds
  | nonZeroBalance
deriving DecidableEq

instance {ε α : Type} [DecidableEq ε] [DecidableEq α] : DecidableEq (Except ε α) :=
  fun a b =>
    match a, b with
    | .error x, .error y =>
      if h : x = y then .isTrue (by rw [h])
      else .isFalse (fun hc => h (Except.error.inj hc))
    | .ok x, .ok y =>
      if h : x = y then .isTrue (by rw [h])
      else .isFalse (fun hc => h (Except.ok.inj hc))
    | .error _, .ok _ => .isFalse (fun hc => Except.noConfusion hc)
    | .ok _, .error _ => .isFalse (fun hc => Except.noConfusion hc)

/-- Chain constants: the rent-exempt balance of an SPL token account
(`rentT`, paid at every token-account creation and recovered at
`close_account`) and of the escrow record account (`rentE`, the
`8 + Escrow::INIT_SPACE` account paid by the maker at `init` and recovered
at `close = maker`). -/
structure Params where
  rentT : Nat
  rentE : Nat

/-- The ledger state the instructions act on: the escrow records by address,
the token accounts by `(authority, mint)` with their `u64` amount, and the
lamport balance of every key. -/
structure Chain where
  escrows : Pubkey → Option Escrow
  tokenAccts : Pubkey × Pubkey → Option Nat
  lamports : Pubkey → Nat

/-- Pointwise update of a finite-support map. -/
def fupd {α β : Type} [DecidableEq α] (f : α → β) (k : α) (v : β) : α → β :=
  fun a => if a = k then v else f a

/-- Largest `u64` value; SPL token amounts and lamports live below it. -/
def UMAX : Nat := 2 ^ 64 - 1

@[simp] theorem fupd_same {α β : Type} [DecidableEq α] (f : α → β) (k : α) (v : β) :
    fupd f k v k = v := by
  simp [fupd]

@[simp] theorem fupd_other {α β : Type} [DecidableEq α] (f : α → β) (k a : α) (v : β)
    (h : a ≠ k) : fupd f k v a = f a := by
  simp [fupd, h]

/-- `spl_token::transfer_checked` on the token-account map: requires both
accounts to exist, the source to hold `amt`, and the destination amount not
to overflow a `u64`; debits then credits, so a self-transfer
(`src = dst`) leaves the balance unchanged, as the SPL program does. -/
def transferChecked (m : Pubkey × Pubkey → Option Nat) (src dst : Pubkey × Pubkey)
    (amt : Nat) : Except Err (Pubkey × Pubkey → Option Nat) :=
  match m src, m dst with
  | none, _ => .error .accountNotInitialized
  | some _, none => .error .accountNotInitialized
  | some bs, some _ =>
    if bs < amt then .error .insufficientFunds
    else
      let m1 := fupd m src (some (bs - amt))
      if UMAX < (m1 dst).getD 0 + amt then .error .overflow
      else .ok (fupd m1 dst (some ((m1 dst).getD 0 + amt)))

/-- Effect of a successful `transfer_checked` on the token-account map:
debit the source, then credit the destination (reading the destination
after the debit, so a self-transfer is a no-op). -/
def xferFinal (m : Pubkey × Pubkey → Option Nat) (src dst : Pubkey × Pubkey)
    (amt : Nat) : Pubkey × Pubkey → Option Nat :=
  let m1 := fupd m src (some ((m src).getD 0 - amt))
  fupd m1 dst (some ((m1 dst).getD 0 + amt))

/-- Resulting state of a successful `make` (escrow record written by
`save_escrow`, vault created and funded with `deposit` by `Make::deposit`,
both rents paid by the maker). -/
def makeFinal (p : Params) (s : Chain) (maker mintA mintB : Pubkey)
    (seed deposit receive : Nat) : Chain :=
  let X := deriveEscrowAddr maker seed
  { escrows := fupd s.escrows X (some ⟨seed, maker, mintA, mintB, receive, canonicalBump⟩)
    tokenAccts :=
      xferFinal (fupd s.tokenAccts (X, mintA) (some 0)) (maker, mintA) (X, mintA) deposit
    lamports := fupd s.lamports maker (s.lamports maker - p.rentE - p.rentT) }

/-- The `make` instruction (lib.rs `make`, contexts/make.rs).  Checks in
account order: `maker` signs; `maker_ata_a` is the maker's existing ATA for
`mint_a`; `escrow` is `init` at the derived address (fails if occupied),
rent paid by the maker; `vault` is `init` as the ATA of the escrow for
`mint_a` (fails if occupied), rent paid by the maker.  Handler:
`deposit(deposit)` transfers `deposit` of `mint_a` from `maker_ata_a` to
the vault, then `save_escrow` persists the record. -/
def make (p : Params) (s : Chain) (maker mintA mintB : Pubkey)
    (seed deposit receive : Nat) : Except Err Chain :=
  if maker.isUser then
    match s.tokenAccts (maker, mintA) with
    | none => .error .accountNotInitialized
    | some balA =>
      let X := deriveEscrowAddr maker seed
      if (s.escrows X).isSome then .error .alreadyExists
      else if s.lamports maker < p.rentE then .error .insufficientLamports
      else if (s.tokenAccts (X, mintA)).isSome then .error .alreadyExists
      else if s.lamports maker - p.rentE < p.rentT then .error .insufficientLamports
      else if balA < deposit then .error .insufficientFunds
      else if UMAX < deposit then .error .overflow
      else .ok (makeFinal p s maker mintA mintB seed deposit receive)
  else .error .missingSignature

/-- The token-account map after the `init_if_needed` creation of
`taker_ata_a` (take.rs): created empty when absent, untouched otherwise. -/
def takeM1 (s : Chain) (taker mintA : Pubkey) : Pubkey × Pubkey → Option Nat :=
  if (s.tokenAccts (taker, mintA)).isNone then fupd s.tokenAccts (taker, mintA) (some 0)
  else s.tokenAccts

/-- The taker's lamports after paying for the creation of `taker_ata_a`. -/
def takeL1 (p : Params) (s : Chain) (taker mintA : Pubkey) : Nat :=
  if (s.tokenAccts (taker, mintA)).isNone then s.lamports taker - p.rentT
  else s.lamports taker

/-- The token-account map after the `init_if_needed` creation of
`maker_ata_b` (take.rs), on top of `takeM1`. -/
def takeM2 (s : Chain) (taker maker mintA mintB : Pubkey) : Pubkey × Pubkey → Option Nat :=
  if (takeM1 s taker mintA (maker, mintB)).isNone then
    fupd (takeM1 s taker mintA) (maker, mintB) (some 0)
  else takeM1 s taker mintA

/-- The taker's lamports after paying for both `init_if_needed` creations. -/
def takeL2 (p : Params) (s : Chain) (taker maker mintA mintB : Pubkey) : Nat :=
  if (takeM1 s taker mintA (maker, mintB)).isNone then takeL1 p s taker mintA - p.rentT
  else takeL1 p s taker mintA

/-- Resulting state of a successful `take`, given the record `e` and the
vault amount `v` read at entry: the two `init_if_needed` ATA creations paid
by the taker, `Take::deposit` (the payment of `e.receive` of `mint_b` from
`taker_ata_b` to `maker_ata_b`), `Take::withdraw_and_close_vault` (full
vault drain of `mint_a` to `taker_ata_a`, then `close_account` sending the
vault's rent lamports to the taker), and Anchor's `close = maker` on the
record sending its rent lamports to the maker. -/
def takeFinal (p : Params) (s : Chain) (taker maker mintA mintB escrowAddr : Pubkey)
    (e : Escrow) (v : Nat) : Chain :=
  let m2 := takeM2 s taker maker mintA mintB
  let m4 := xferFinal m2 (taker, mintB) (maker, mintB) e.receive
  let m6 := xferFinal m4 (escrowAddr, mintA) (taker, mintA) v
  let m7 := fupd m6 (escrowAddr, mintA) none
  let lam1 := fupd s.lamports taker (takeL2 p s taker maker mintA mintB)
  let lam2 := fupd lam1 taker (lam1 taker + p.rentT)
  let lam3 := fupd lam2 maker (lam2 maker + p.rentE)
  { escrows := fupd s.escrows escrowAddr none
    tokenAccts := m7
    lamports := lam3 }

/-- The `take` instruction (lib.rs `take`, contexts/take.rs).  Checks in
account order: `taker` signs; `taker_ata_a` is `init_if_needed` with the
taker as payer; `taker_ata_b` must exist; `maker_ata_b` is `init_if_needed`
with the taker as payer; `escrow` must exist at the supplied address and
satisfy `has_one = maker`, `has_one = mint_a`, `has_one = mint_b` and the
`seeds`/`bump` re-derivation; the `vault` (the escrow's ATA for `mint_a`)
must exist.  Handler: `deposit()` transfers `escrow.receive` of `mint_b`
from the taker to the maker, then `withdraw_and_close_vault` transfers
`vault.amount` (the amount read from the vault account, not a caller
input) of `mint_a` from the vault to `taker_ata_a` and closes the vault
with the taker as lamport destination; finally Anchor's `close = maker`
closes the record to the maker. -/
def take (p : Params) (s : Chain) (taker maker mintA mintB escrowAddr : Pubkey) :
    Except Err Chain :=
  if taker.isUser then
    if (s.tokenAccts (taker, mintA)).isNone ∧ s.lamports taker < p.rentT then
      .error .insufficientLamports
    else if (takeM1 s taker mintA (taker, mintB)).isNone then .error .accountNotInitialized
    else if (takeM1 s taker mintA (maker, mintB)).isNone ∧ takeL1 p s taker mintA < p.rentT then
      .error .insufficientLamports
    else
      match s.escrows escrowAddr with
      | none => .error .accountNotInitialized
      | some e =>
        if e.maker ≠ maker then .error .constraintHasOne
        else if e.mint_a ≠ mintA then .error .constraintHasOne
        else if e.mint_b ≠ mintB then .error .constraintHasOne
        else if escrowAddr ≠ deriveEscrowAddr maker e.seed then .error .constraintSeeds
        else
          match takeM2 s taker maker mintA mintB (escrowAddr, mintA) with
          | none => .error .accountNotInitialized
          | some v =>
            match transferChecked (takeM2 s taker maker mintA mintB)
                (taker, mintB) (maker, mintB) e.receive with
            | .error er => .error er
            | .ok m3 =>
              match transferChecked m3 (escrowAddr, mintA) (taker, mintA) v with
              | .error er => .error er
              | .ok m4 =>
                if (m4 (escrowAddr, mintA)).getD 0 ≠ 0 then .error .nonZeroBalance
                else .ok (takeFinal p s taker maker mintA mintB escrowAddr e v)
  else .error .missingSignature

/-- Resulting state of a successful `refund`, given the record `e` and the
vault amount `v`: `refund_and_close_vault` transfers the full vault balance
of `mint_a` back to `maker_ata_a` and closes the vault with the maker as
lamport destination, then Anchor's `close = maker` closes the record to the
maker. -/
def refundFinal (p : Params) (s : Chain) (caller mintA escrowAddr : Pubkey)
    (v : Nat) : Chain :=
  let m2 := xferFinal s.tokenAccts (escrowAddr, mintA) (caller, mintA) v
  let m3 := fupd m2 (escrowAddr, mintA) none
  let lam1 := fupd s.lamports caller (s.lamports caller + p.rentT)
  let lam2 := fupd lam1 caller (lam1 caller + p.rentE)
  { escrows := fupd s.escrows escrowAddr none
    tokenAccts := m3
    lamports := lam2 }

/-- The `refund` instruction (lib.rs `refund`, contexts/refund.rs).  Checks
in account order: `maker` signs; `maker_ata_a` (the caller's ATA for
`mint_a`) must exist; `escrow` must exist at the supplied address and
satisfy `has_one = mint_a`, `has_one = maker` (the caller must be the
recorded maker) and the `seeds`/`bump` re-derivation; the `vault` must
exist.  Handler: `refund_and_close_vault` transfers `vault.amount` of
`mint_a` back to the caller and closes the vault to the caller, then
Anchor's `close = maker` closes the record to the caller. -/
def refund (p : Params) (s : Chain) (caller mintA escrowAddr : Pubkey) :
    Except Err Chain :=
  if caller.isUser then
    match s.tokenAccts (caller, mintA) with
    | none => .error .accountNotInitialized
    | some _ =>
      match s.escrows escrowAddr with
      | none => .error .accountNotInitialized
      | some e =>
        if e.mint_a ≠ mintA then .error .constraintHasOne
        else if e.maker ≠ caller then .error .constraintHasOne
        else if escrowAddr ≠ deriveEscrowAddr caller e.seed then .error .constraintSeeds
        else
          match s.tokenAccts (escrowAddr, mintA) with
          | none => .error .accountNotInitialized
          | some v =>
            match transferChecked s.tokenAccts (escrowAddr, mintA) (caller, mintA) v with
            | .error er => .error er
            | .ok m1 =>
              if (m1 (escrowAddr, mintA)).getD 0 ≠ 0 then .error .nonZeroBalance
              else .ok (refundFinal p s caller mintA escrowAddr v)
  else .error .missingSignature

/-! ## Characterizations of the three instructions -/

/-- Success characterization of `transferChecked`. -/
theorem transferChecked_ok_iff (m : Pubkey × Pubkey → Option Nat)
    (src dst : Pubkey × Pubkey) (amt : Nat) (m' : Pubkey × Pubkey → Option Nat) :
    transferChecked m src dst amt = .ok m' ↔
      (m src).isSome ∧ (m dst).isSome ∧ amt ≤ (m src).getD 0 ∧
      (fupd m src (some ((m src).getD 0 - amt)) dst).getD 0 + amt ≤ UMAX ∧
      m' = xferFinal m src dst amt := by
  unfold transferChecked xferFinal
  cases hs : m src with
  | none => simp
  | some bs =>
    cases hd : m dst with
    | none => simp
    | some bd =>
      simp only [hs, hd, Option.getD_some, Option.isSome_some, true_and]
      split_ifs with h1 h2
      · simp only [false_iff, not_and]
        intro hle
        omega
      · simp only [false_iff, not_and]
        intro _ hle
        omega
      · rw [Nat.not_lt] at h1 h2
        simp only [Except.ok.injEq, h1, h2, true_and]
        exact eq_comm

/-- Success characterization of `make`. -/
theorem make_ok_iff (p : Params) (s : Chain) (maker mintA mintB : Pubkey)
    (seed deposit receive : Nat) (s' : Chain) :
    make p s maker mintA mintB seed deposit receive = .ok s' ↔
      maker.isUser = true ∧
      (s.tokenAccts (maker, mintA)).isSome ∧
      s.escrows (deriveEscrowAddr maker seed) = none ∧
      p.rentE ≤ s.lamports maker ∧
      s.tokenAccts (deriveEscrowAddr maker seed, mintA) = none ∧
      p.rentT ≤ s.lamports maker - p.rentE ∧
      deposit ≤ (s.tokenAccts (maker, mintA)).getD 0 ∧
      deposit ≤ UMAX ∧
      s' = makeFinal p s maker mintA mintB seed deposit receive := by
  unfold make
  cases hu : maker.isUser with
  | false => simp
  | true =>
    cases hA : s.tokenAccts (maker, mintA) with
    | none => simp
    | some balA =>
      simp only [if_true, Option.isSome_some, Option.getD_some, true_and]
      split_ifs with h1 h2 h3 h4 h5 h6
      · simp only [false_iff, not_and]
        intro hc
        exact absurd hc (Option.isSome_iff_ne_none.mp h1)
      · simp only [false_iff, not_and]
        intro _ hc
        omega
      · simp only [false_iff, not_and]
        intro _ _ hc
        exact absurd hc (Option.isSome_iff_ne_none.mp h3)
      · simp only [false_iff, not_and]
        intro _ _ _ hc
        omega
      · simp only [false_iff, not_and]
        intro _ _ _ _ hc
        omega
      · simp only [false_iff, not_and]
        intro _ _ _ _ _ hc
        omega
      · rw [Option.not_isSome_iff_eq_none] at h1 h3
        rw [Nat.not_lt] at h2 h4 h5 h6
        simp only [Except.ok.injEq, h1, h3, h2, h4, h5, h6, true_and]
        exact eq_comm

/-! ## Key-disjointness facts about the address space -/

/-- A signing key is never a program derived address. -/
theorem isUser_ne_derived {k : Pubkey} (h : k.isUser = true) (m : Pubkey) (sd : Nat) :
    k ≠ Pubkey.derived m sd := by
  cases k with
  | user n => exact fun hc => Pubkey.noConfusion hc
  | derived a b => exact absurd h (by simp [Pubkey.isUser])

/-- A derived address never equals the maker key it is derived from. -/
theorem derived_ne_base (m : Pubkey) (sd : Nat) : Pubkey.derived m sd ≠ m := by
  intro h
  have hs := congrArg sizeOf h
  simp only [Pubkey.derived.sizeOf_spec] at hs
  omega

/-- Success characterization of `refund`. -/
theorem refund_ok_iff (p : Params) (s : Chain) (caller mintA escrowAddr : Pubkey)
    (s' : Chain) :
    refund p s caller mintA escrowAddr = .ok s' ↔
      ∃ e v m1,
        caller.isUser = true ∧
        (s.tokenAccts (caller, mintA)).isSome ∧
        s.escrows escrowAddr = some e ∧
        e.mint_a = mintA ∧
        e.maker = caller ∧
        escrowAddr = deriveEscrowAddr caller e.seed ∧
        s.tokenAccts (escrowAddr, mintA) = some v ∧
        transferChecked s.tokenAccts (escrowAddr, mintA) (caller, mintA) v = .ok m1 ∧
        (m1 (escrowAddr, mintA)).getD 0 = 0 ∧
        s' = refundFinal p s caller mintA escrowAddr v := by
  constructor
  · intro h
    unfold refund at h
    split at h
    case isFalse => exact Except.noConfusion h
    rename_i hu
    split at h
    next hA => exact Except.noConfusion h
    rename_i balA hA
    split at h
    next he => exact Except.noConfusion h
    rename_i e he
    split at h
    next h1 => exact Except.noConfusion h
    rename_i h1
    split at h
    next h2 => exact Except.noConfusion h
    rename_i h2
    split at h
    next h3 => exact Except.noConfusion h
    rename_i h3
    split at h
    next hv => exact Except.noConfusion h
    rename_i v hv
    split at h
    next er ht => exact Except.noConfusion h
    rename_i m1 ht
    split at h
    next h4 => exact Except.noConfusion h
    rename_i h4
    rw [not_ne_iff] at h1 h2 h3 h4
    exact ⟨e, v, m1, hu, by rw [hA]; rfl, he, h1, h2, h3, hv, ht, h4,
      (Except.ok.inj h).symm⟩
  · rintro ⟨e, v, m1, hu, hA, he, h1, h2, h3, hv, ht, h4, rfl⟩
    unfold refund
    rw [Option.isSome_iff_exists] at hA
    obtain ⟨balA, hA⟩ := hA
    simp only [hu, if_true, hA, he, h1, h2, ← h3, hv, ht, h4, ne_eq,
      not_true_eq_false, not_false_eq_true, if_neg]

/-- Success characterization of `take`. -/
theorem take_ok_iff (p : Params) (s : Chain) (taker maker mintA mintB escrowAddr : Pubkey)
    (s' : Chain) :
    take p s taker maker mintA mintB escrowAddr = .ok s' ↔
      ∃ e v m3 m4,
        taker.isUser = true ∧
        ((s.tokenAccts (taker, mintA)).isNone = true → p.rentT ≤ s.lamports taker) ∧
        (takeM1 s taker mintA (taker, mintB)).isSome ∧
        ((takeM1 s taker mintA (maker, mintB)).isNone = true →
          p.rentT ≤ takeL1 p s taker mintA) ∧
        s.escrows escrowAddr = some e ∧
        e.maker = maker ∧
        e.mint_a = mintA ∧
        e.mint_b = mintB ∧
        escrowAddr = deriveEscrowAddr maker e.seed ∧
        takeM2 s taker maker mintA mintB (escrowAddr, mintA) = some v ∧
        transferChecked (takeM2 s taker maker mintA mintB) (taker, mintB) (maker, mintB)
          e.receive = .ok m3 ∧
        transferChecked m3 (escrowAddr, mintA) (taker, mintA) v = .ok m4 ∧
        (m4 (escrowAddr, mintA)).getD 0 = 0 ∧
        s' = takeFinal p s taker maker mintA mintB escrowAddr e v := by
  constructor
  · intro h
    unfold take at h
    split at h
    case isFalse => exact Except.noConfusion h
    rename_i hu
    split at h
    next hg => exact Except.noConfusion h
    rename_i hg1
    split at h
    next hc => exact Except.noConfusion h
    rename_i hc3
    split at h
    next hg => exact Except.noConfusion h
    rename_i hg2
    split at h
    next he => exact Except.noConfusion h
    rename_i e he
    split at h
    next h1 => exact Except.noConfusion h
    rename_i h1
    split at h
    next h2 => exact Except.noConfusion h
    rename_i h2
    split at h
    next h3 => exact Except.noConfusion h
    rename_i h3
    split at h
    next h4 => exact Except.noConfusion h
    rename_i h4
    split at h
    next hv => exact Except.noConfusion h
    rename_i v hv
    split at h
    next er ht => exact Except.noConfusion h
    rename_i m3 ht1
    split at h
    next er ht => exact Except.noConfusion h
    rename_i m4 ht2
    split at h
    next h5 => exact Except.noConfusion h
    rename_i h5
    rw [not_ne_iff] at h1 h2 h3 h4 h5
    refine ⟨e, v, m3, m4, hu, ?_, ?_, ?_, he, h1, h2, h3, h4, hv, ht1, ht2, h5,
      (Except.ok.inj h).symm⟩
    · exact fun hn => Nat.not_lt.mp (fun hlt => hg1 ⟨hn, hlt⟩)
    · rw [Option.isSome_iff_ne_none]
      intro hn
      exact hc3 (by rw [Option.isNone_iff_eq_none]; exact hn)
    · exact fun hn => Nat.not_lt.mp (fun hlt => hg2 ⟨hn, hlt⟩)
  · rintro ⟨e, v, m3, m4, hu, hc2, hc3, hc4, he, hm, ha, hb, hseed, hv, ht1, ht2, h0, rfl⟩
    unfold take
    rw [if_pos hu,
      if_neg (fun hg => absurd (hc2 hg.1) (Nat.not_le.mpr hg.2)),
      if_neg (fun hn => by
        rw [Option.isNone_iff_eq_none] at hn
        rw [hn] at hc3
        simp at hc3),
      if_neg (fun hg => absurd (hc4 hg.1) (Nat.not_le.mpr hg.2))]
    simp only [he, hm, ha, hb, ← hseed, hv, ht1, ht2, h0, ne_eq, eq_self_iff_true,
      not_true_eq_false, not_false_eq_true, if_neg, if_false, ite_false]

/-! ## Computation lemmas for the post-states -/

/-- The base key never equals an address derived from it. -/
theorem base_ne_derived (m : Pubkey) (sd : Nat) : m ≠ Pubkey.derived m sd :=
  fun h => derived_ne_base m sd h.symm

theorem makeFinal_escrows_at (p : Params) (s : Chain) (maker mintA mintB : Pubkey)
    (seed deposit receive : Nat) :
    (makeFinal p s maker mintA mintB seed deposit receive).escrows
      (deriveEscrowAddr maker seed) =
      some ⟨seed, maker, mintA, mintB, receive, canonicalBump⟩ := by
  simp [makeFinal]

theorem makeFinal_escrows_other (p : Params) (s : Chain) (maker mintA mintB : Pubkey)
    (seed deposit receive : Nat) (a : Pubkey) (h : a ≠ deriveEscrowAddr maker seed) :
    (makeFinal p s maker mintA mintB seed deposit receive).escrows a = s.escrows a := by
  simp [makeFinal, fupd, h]

theorem makeFinal_vault (p : Params) (s : Chain) (maker mintA mintB : Pubkey)
    (seed deposit receive : Nat) :
    (makeFinal p s maker mintA mintB seed deposit receive).tokenAccts
      (deriveEscrowAddr maker seed, mintA) = some deposit := by
  have hne : ((deriveEscrowAddr maker seed, mintA) : Pubkey × Pubkey) ≠ (maker, mintA) :=
    fun hc => derived_ne_base maker seed (congrArg Prod.fst hc)
  simp [makeFinal, xferFinal, fupd_other _ _ _ _ hne]

theorem makeFinal_makerA (p : Params) (s : Chain) (maker mintA mintB : Pubkey)
    (seed deposit receive : Nat) :
    (makeFinal p s maker mintA mintB seed deposit receive).tokenAccts (maker, mintA) =
      some ((s.tokenAccts (maker, mintA)).getD 0 - deposit) := by
  have hne : ((maker, mintA) : Pubkey × Pubkey) ≠ (deriveEscrowAddr maker seed, mintA) :=
    fun hc => base_ne_derived maker seed (congrArg Prod.fst hc)
  simp [makeFinal, xferFinal, fupd_other _ _ _ _ hne, fupd_same]

theorem makeFinal_tokenAccts_other (p : Params) (s : Chain) (maker mintA mintB : Pubkey)
    (seed deposit receive : Nat) (k : Pubkey × Pubkey)
    (h1 : k ≠ (deriveEscrowAddr maker seed, mintA)) (h2 : k ≠ (maker, mintA)) :
    (makeFinal p s maker mintA mintB seed deposit receive).tokenAccts k =
      s.tokenAccts k := by
  simp [makeFinal, xferFinal, fupd_other _ _ _ _ h1, fupd_other _ _ _ _ h2]

theorem makeFinal_lamports_maker (p : Params) (s : Chain) (maker mintA mintB : Pubkey)
    (seed deposit receive : Nat) :
    (makeFinal p s maker mintA mintB seed deposit receive).lamports maker =
      s.lamports maker - p.rentE - p.rentT := by
  simp [makeFinal]

theorem makeFinal_lamports_other (p : Params) (s : Chain) (maker mintA mintB : Pubkey)
    (seed deposit receive : Nat) (a : Pubkey) (h : a ≠ maker) :
    (makeFinal p s maker mintA mintB seed deposit receive).lamports a = s.lamports a := by
  simp [makeFinal, fupd, h]

/-! ## C6: a second Open on the same (maker, seed) fails AlreadyExists -/

/-- Claim C6: after a successful `make` with a given `(maker, seed)` pair,
a second `make` with the same pair (any deposit and receive amounts) fails
with `AlreadyExists`, because the escrow `init` finds the derived address
occupied.  The failing instruction returns no state, so the existing escrow
record and vault are untouched. -/
theorem make_second_open_already_exists (p : Params) (s s1 : Chain)
    (maker mintA mintB : Pubkey) (seed d r d' r' : Nat)
    (h : make p s maker mintA mintB seed d r = .ok s1) :
    make p s1 maker mintA mintB seed d' r' = .error .alreadyExists := by
  rw [make_ok_iff] at h
  obtain ⟨hu, hA, hfree, hl1, hvfree, hl2, hdep, hdu, rfl⟩ := h
  unfold make
  rw [if_pos hu]
  simp only [makeFinal_makerA p s maker mintA mintB seed d r,
    makeFinal_escrows_at p s maker mintA mintB seed d r, Option.isSome_some, if_true]

/-- Witness for C6 at a concrete chain: user 0 opens escrow seed 7 with
deposit 100 and receive 50; opening the same (maker, seed) again fails with
`AlreadyExists`. -/
theorem make_second_open_already_exists_witness :
    (∃ s1, make ⟨5, 7⟩
        ⟨fun _ => none,
         fun k => if k = (Pubkey.user 0, Pubkey.user 100) then some 1000 else none,
         fun _ => 50⟩
        (Pubkey.user 0) (Pubkey.user 100) (Pubkey.user 101) 7 100 50 = .ok s1 ∧
      make ⟨5, 7⟩ s1 (Pubkey.user 0) (Pubkey.user 100) (Pubkey.user 101) 7 100 50 =
        .error .alreadyExists) := by
  cases hmk : make ⟨5, 7⟩
      ⟨fun _ => none,
       fun k => if k = (Pubkey.user 0, Pubkey.user 100) then some 1000 else none,
       fun _ => 50⟩
      (Pubkey.user 0) (Pubkey.user 100) (Pubkey.user 101) 7 100 50 with
  | error er =>
    have hok : (make ⟨5, 7⟩
        ⟨fun _ => none,
         fun k => if k = (Pubkey.user 0, Pubkey.user 100) then some 1000 else none,
         fun _ => 50⟩
        (Pubkey.user 0) (Pubkey.user 100) (Pubkey.user 101) 7 100 50).isOk = true := by
      decide
    rw [hmk] at hok
    exact Bool.noConfusion hok
  | ok s1 =>
    exact ⟨s1, rfl, make_second_open_already_exists _ _ _ _ _ _ _ _ _ _ _ hmk⟩

/-! ## Concrete fixtures used by the witnesses -/

/-- A concrete maker key. -/
def uM : Pubkey := Pubkey.user 0

/-- A concrete taker key. -/
def uT : Pubkey := Pubkey.user 1

/-- A concrete mint for asset A. -/
def tokA : Pubkey := Pubkey.user 100

/-- A concrete mint for asset B. -/
def tokB : Pubkey := Pubkey.user 101

/-- The escrow address for `uM` with seed 3. -/
def eX : Pubkey := Pubkey.derived uM 3

/-- The record of an open escrow: seed 3, deposit asset `tokA`, expecting
50 of `tokB`. -/
def eRec : Escrow := ⟨3, uM, tokA, tokB, 50, 255⟩

/-- Concrete rents: 5 lamports for a token account, 7 for the record. -/
def pW : Params := ⟨5, 7⟩

/-- A chain state in which the escrow `eRec` is open at `eX` with 100
`tokA` in its vault, and both parties hold funded token accounts. -/
def sOpen : Chain :=
  { escrows := fun a => if a = eX then some eRec else none
    tokenAccts := fun k =>
      if k = (uM, tokA) then some 900
      else if k = (uM, tokB) then some 10
      else if k = (uT, tokA) then some 0
      else if k = (uT, tokB) then some 200
      else if k = (eX, tokA) then some 100
      else none
    lamports := fun a => if a = uM then 40 else if a = uT then 40 else 0 }

/-! ## C5: only the recorded maker can refund -/

/-- Claim C5: `refund` succeeds only when the caller is exactly the maker
stored in the escrow record (first conjunct: any success forces the
`has_one = maker` identity), and a call by any other identity with an
otherwise well-formed account set fails with the `has_one` authorization
error (second conjunct).  A failing instruction persists no state, so the
escrow record and the vault are untouched on that path. -/
theorem refund_only_maker (p : Params) (s : Chain) (caller mintA escrowAddr : Pubkey)
    (e : Escrow) (he : s.escrows escrowAddr = some e) :
    (∀ s', refund p s caller mintA escrowAddr = .ok s' → e.maker = caller) ∧
    (caller.isUser = true → (s.tokenAccts (caller, mintA)).isSome = true →
      e.mint_a = mintA → e.maker ≠ caller →
      refund p s caller mintA escrowAddr = .error .constraintHasOne) := by
  constructor
  · intro s' h
    rw [refund_ok_iff] at h
    obtain ⟨e', v, m1, _, _, he', _, hmk, _⟩ := h
    rw [he] at he'
    cases he'
    exact hmk
  · intro hu hA hma hne
    rw [Option.isSome_iff_exists] at hA
    obtain ⟨balA, hA⟩ := hA
    unfold refund
    rw [if_pos hu]
    simp [hA, he, hma, hne]

/-- Witness for C5: the taker `uT` (who is not the maker `uM` recorded in
`eRec`) attempts `refund` on the open escrow and gets the authorization
failure. -/
theorem refund_only_maker_witness :
    refund pW sOpen uT tokA eX = .error .constraintHasOne :=
  (refund_only_maker pW sOpen uT tokA eX eRec (by decide)).2 (by decide) (by decide)
    (by decide) (by decide)

/-! ## Pointwise values of the take intermediates and post-state -/

theorem takeM1_apply (s : Chain) (taker mintA : Pubkey) (k : Pubkey × Pubkey) :
    takeM1 s taker mintA k =
      if (s.tokenAccts (taker, mintA)).isNone = true ∧ k = (taker, mintA) then some 0
      else s.tokenAccts k := by
  unfold takeM1
  cases hn : (s.tokenAccts (taker, mintA)).isNone with
  | false => simp [hn]
  | true => simp [hn, fupd]

theorem takeM1_some (s : Chain) (taker mintA : Pubkey) (k : Pubkey × Pubkey) (b : Nat)
    (hk : s.tokenAccts k = some b) : takeM1 s taker mintA k = some b := by
  rw [takeM1_apply]
  split_ifs with h
  · rw [h.2] at hk
    rw [hk] at h
    simp at h
  · exact hk

theorem takeM2_apply (s : Chain) (taker maker mintA mintB : Pubkey) (k : Pubkey × Pubkey) :
    takeM2 s taker maker mintA mintB k =
      if (takeM1 s taker mintA (maker, mintB)).isNone = true ∧ k = (maker, mintB) then some 0
      else takeM1 s taker mintA k := by
  unfold takeM2
  cases hn : (takeM1 s taker mintA (maker, mintB)).isNone with
  | false => simp [hn]
  | true => simp [hn, fupd]

theorem takeM2_some (s : Chain) (taker maker mintA mintB : Pubkey) (k : Pubkey × Pubkey)
    (b : Nat) (hk : s.tokenAccts k = some b) :
    takeM2 s taker maker mintA mintB k = some b := by
  rw [takeM2_apply]
  split_ifs with h
  · rw [h.2] at hk
    rw [takeM1_some s taker mintA _ _ hk] at h
    simp at h
  · exact takeM1_some s taker mintA k b hk

/-- The getD-0 balance is preserved by the two creations at every key other
than the two creation targets, and also at the creation targets themselves
(a key created empty reads 0, as does an absent key). -/
theorem takeM2_getD (s : Chain) (taker maker mintA mintB : Pubkey) (k : Pubkey × Pubkey) :
    (takeM2 s taker maker mintA mintB k).getD 0 = (s.tokenAccts k).getD 0 := by
  rw [takeM2_apply]
  split_ifs with h2
  · obtain ⟨hn, rfl⟩ := h2
    rw [takeM1_apply] at hn
    split_ifs at hn with h3
    · simp at hn
    · rw [Option.isNone_iff_eq_none] at hn
      rw [hn]
      rfl
  · rw [takeM1_apply]
    split_ifs with h3
    · obtain ⟨hn, rfl⟩ := h3
      rw [Option.isNone_iff_eq_none] at hn
      rw [hn]
      rfl
    · rfl

theorem takeM2_other (s : Chain) (taker maker mintA mintB : Pubkey) (k : Pubkey × Pubkey)
    (h1 : k ≠ (taker, mintA)) (h3 : k ≠ (maker, mintB)) :
    takeM2 s taker maker mintA mintB k = s.tokenAccts k := by
  rw [takeM2_apply, if_neg (fun hc => h3 hc.2), takeM1_apply, if_neg (fun hc => h1 hc.2)]

theorem xferFinal_src (m : Pubkey × Pubkey → Option Nat) (src dst : Pubkey × Pubkey)
    (amt : Nat) (h : src ≠ dst) :
    xferFinal m src dst amt src = some ((m src).getD 0 - amt) := by
  unfold xferFinal
  rw [fupd_other _ _ _ _ h, fupd_same]

theorem xferFinal_dst (m : Pubkey × Pubkey → Option Nat) (src dst : Pubkey × Pubkey)
    (amt : Nat) (h : dst ≠ src) :
    xferFinal m src dst amt dst = some ((m dst).getD 0 + amt) := by
  unfold xferFinal
  rw [fupd_same, fupd_other _ _ _ _ h]

theorem xferFinal_other (m : Pubkey × Pubkey → Option Nat) (src dst k : Pubkey × Pubkey)
    (amt : Nat) (h1 : k ≠ src) (h2 : k ≠ dst) :
    xferFinal m src dst amt k = m k := by
  unfold xferFinal
  rw [fupd_other _ _ _ _ h2, fupd_other _ _ _ _ h1]

theorem takeFinal_vault_closed (p : Params) (s : Chain)
    (taker maker mintA mintB escrowAddr : Pubkey) (e : Escrow) (v : Nat) :
    (takeFinal p s taker maker mintA mintB escrowAddr e v).tokenAccts
      (escrowAddr, mintA) = none := by
  simp [takeFinal]

theorem takeFinal_escrows_at (p : Params) (s : Chain)
    (taker maker mintA mintB escrowAddr : Pubkey) (e : Escrow) (v : Nat) :
    (takeFinal p s taker maker mintA mintB escrowAddr e v).escrows escrowAddr = none := by
  simp [takeFinal]

theorem takeFinal_escrows_other (p : Params) (s : Chain)
    (taker maker mintA mintB escrowAddr : Pubkey) (e : Escrow) (v : Nat) (a : Pubkey)
    (h : a ≠ escrowAddr) :
    (takeFinal p s taker maker mintA mintB escrowAddr e v).escrows a = s.escrows a := by
  simp [takeFinal, fupd, h]

theorem takeFinal_taker_a (p : Params) (s : Chain)
    (taker maker mintA mintB escrowAddr : Pubkey) (e : Escrow) (v : Nat)
    (hta : taker ≠ escrowAddr) (hab : mintA ≠ mintB) :
    (takeFinal p s taker maker mintA mintB escrowAddr e v).tokenAccts (taker, mintA) =
      some ((s.tokenAccts (taker, mintA)).getD 0 + v) := by
  have k1 : ((taker, mintA) : Pubkey × Pubkey) ≠ (escrowAddr, mintA) :=
    fun hc => hta (congrArg Prod.fst hc)
  have k2 : ((taker, mintA) : Pubkey × Pubkey) ≠ (taker, mintB) :=
    fun hc => hab (congrArg Prod.snd hc)
  have k3 : ((taker, mintA) : Pubkey × Pubkey) ≠ (maker, mintB) :=
    fun hc => hab (congrArg Prod.snd hc)
  show (fupd (xferFinal (xferFinal (takeM2 s taker maker mintA mintB)
      (taker, mintB) (maker, mintB) e.receive) (escrowAddr, mintA) (taker, mintA) v)
      (escrowAddr, mintA) none) (taker, mintA) = _
  rw [fupd_other _ _ _ _ k1, xferFinal_dst _ _ _ _ k1,
    xferFinal_other _ _ _ _ _ k2 k3, takeM2_getD]

theorem takeFinal_maker_b (p : Params) (s : Chain)
    (taker maker mintA mintB escrowAddr : Pubkey) (e : Escrow) (v : Nat)
    (htm : maker ≠ taker) (hab : mintB ≠ mintA) :
    (takeFinal p s taker maker mintA mintB escrowAddr e v).tokenAccts (maker, mintB) =
      some ((s.tokenAccts (maker, mintB)).getD 0 + e.receive) := by
  have k1 : ((maker, mintB) : Pubkey × Pubkey) ≠ (escrowAddr, mintA) :=
    fun hc => hab (congrArg Prod.snd hc)
  have k2 : ((maker, mintB) : Pubkey × Pubkey) ≠ (taker, mintA) :=
    fun hc => hab (congrArg Prod.snd hc)
  have k3 : ((maker, mintB) : Pubkey × Pubkey) ≠ (taker, mintB) :=
    fun hc => htm (congrArg Prod.fst hc)
  show (fupd (xferFinal (xferFinal (takeM2 s taker maker mintA mintB)
      (taker, mintB) (maker, mintB) e.receive) (escrowAddr, mintA) (taker, mintA) v)
      (escrowAddr, mintA) none) (maker, mintB) = _
  rw [fupd_other _ _ _ _ k1, xferFinal_other _ _ _ _ _ k1 k2,
    xferFinal_dst _ _ _ _ k3, takeM2_getD]

theorem takeFinal_taker_b (p : Params) (s : Chain)
    (taker maker mintA mintB escrowAddr : Pubkey) (e : Escrow) (v : Nat)
    (htm : taker ≠ maker) (hab : mintB ≠ mintA) :
    (takeFinal p s taker maker mintA mintB escrowAddr e v).tokenAccts (taker, mintB) =
      some ((s.tokenAccts (taker, mintB)).getD 0 - e.receive) := by
  have k1 : ((taker, mintB) : Pubkey × Pubkey) ≠ (escrowAddr, mintA) :=
    fun hc => hab (congrArg Prod.snd hc)
  have k2 : ((taker, mintB) : Pubkey × Pubkey) ≠ (taker, mintA) :=
    fun hc => hab (congrArg Prod.snd hc)
  have k3 : ((taker, mintB) : Pubkey × Pubkey) ≠ (maker, mintB) :=
    fun hc => htm (congrArg Prod.fst hc)
  show (fupd (xferFinal (xferFinal (takeM2 s taker maker mintA mintB)
      (taker, mintB) (maker, mintB) e.receive) (escrowAddr, mintA) (taker, mintA) v)
      (escrowAddr, mintA) none) (taker, mintB) = _
  rw [fupd_other _ _ _ _ k1, xferFinal_other _ _ _ _ _ k1 k2,
    xferFinal_src _ _ _ _ k3, takeM2_getD]

theorem takeFinal_tokenAccts_other (p : Params) (s : Chain)
    (taker maker mintA mintB escrowAddr : Pubkey) (e : Escrow) (v : Nat)
    (k : Pubkey × Pubkey) (h1 : k ≠ (taker, mintA)) (h2 : k ≠ (taker, mintB))
    (h3 : k ≠ (maker, mintB)) (h4 : k ≠ (escrowAddr, mintA)) :
    (takeFinal p s taker maker mintA mintB escrowAddr e v).tokenAccts k =
      s.tokenAccts k := by
  show (fupd (xferFinal (xferFinal (takeM2 s taker maker mintA mintB)
      (taker, mintB) (maker, mintB) e.receive) (escrowAddr, mintA) (taker, mintA) v)
      (escrowAddr, mintA) none) k = _
  rw [fupd_other _ _ _ _ h4, xferFinal_other _ _ _ _ _ h4 h1,
    xferFinal_other _ _ _ _ _ h2 h3, takeM2_other _ _ _ _ _ _ h1 h3]

theorem takeFinal_lamports_taker (p : Params) (s : Chain)
    (taker maker mintA mintB escrowAddr : Pubkey) (e : Escrow) (v : Nat)
    (htm : taker ≠ maker) :
    (takeFinal p s taker maker mintA mintB escrowAddr e v).lamports taker =
      takeL2 p s taker maker mintA mintB + p.rentT := by
  show (fupd (fupd (fupd s.lamports taker (takeL2 p s taker maker mintA mintB)) taker
      (fupd s.lamports taker (takeL2 p s taker maker mintA mintB) taker + p.rentT)) maker
      _) taker = _
  rw [fupd_other _ _ _ _ htm, fupd_same, fupd_same]

theorem takeFinal_lamports_maker (p : Params) (s : Chain)
    (taker maker mintA mintB escrowAddr : Pubkey) (e : Escrow) (v : Nat)
    (htm : maker ≠ taker) :
    (takeFinal p s taker maker mintA mintB escrowAddr e v).lamports maker =
      s.lamports maker + p.rentE := by
  show (fupd (fupd (fupd s.lamports taker (takeL2 p s taker maker mintA mintB)) taker
      (fupd s.lamports taker (takeL2 p s taker maker mintA mintB) taker + p.rentT)) maker
      _) maker = _
  rw [fupd_same, fupd_other _ _ _ _ htm, fupd_other _ _ _ _ htm]

theorem takeFinal_lamports_other (p : Params) (s : Chain)
    (taker maker mintA mintB escrowAddr : Pubkey) (e : Escrow) (v : Nat) (a : Pubkey)
    (h1 : a ≠ taker) (h2 : a ≠ maker) :
    (takeFinal p s taker maker mintA mintB escrowAddr e v).lamports a = s.lamports a := by
  show (fupd (fupd (fupd s.lamports taker (takeL2 p s taker maker mintA mintB)) taker
      (fupd s.lamports taker (takeL2 p s taker maker mintA mintB) taker + p.rentT)) maker
      _) a = _
  rw [fupd_other _ _ _ _ h2, fupd_other _ _ _ _ h1, fupd_other _ _ _ _ h1]

theorem refundFinal_vault_closed (p : Params) (s : Chain) (caller mintA escrowAddr : Pubkey)
    (v : Nat) :
    (refundFinal p s caller mintA escrowAddr v).tokenAccts (escrowAddr, mintA) = none := by
  simp [refundFinal]

theorem refundFinal_caller_a (p : Params) (s : Chain) (caller mintA escrowAddr : Pubkey)
    (v : Nat) (h : caller ≠ escrowAddr) :
    (refundFinal p s caller mintA escrowAddr v).tokenAccts (caller, mintA) =
      some ((s.tokenAccts (caller, mintA)).getD 0 + v) := by
  have k1 : ((caller, mintA) : Pubkey × Pubkey) ≠ (escrowAddr, mintA) :=
    fun hc => h (congrArg Prod.fst hc)
  show (fupd (xferFinal s.tokenAccts (escrowAddr, mintA) (caller, mintA) v)
      (escrowAddr, mintA) none) (caller, mintA) = _
  rw [fupd_other _ _ _ _ k1, xferFinal_dst _ _ _ _ k1]

theorem refundFinal_tokenAccts_other (p : Params) (s : Chain)
    (caller mintA escrowAddr : Pubkey) (v : Nat) (k : Pubkey × Pubkey)
    (h1 : k ≠ (escrowAddr, mintA)) (h2 : k ≠ (caller, mintA)) :
    (refundFinal p s caller mintA escrowAddr v).tokenAccts k = s.tokenAccts k := by
  show (fupd (xferFinal s.tokenAccts (escrowAddr, mintA) (caller, mintA) v)
      (escrowAddr, mintA) none) k = _
  rw [fupd_other _ _ _ _ h1, xferFinal_other _ _ _ _ _ h1 h2]

theorem refundFinal_escrows_at (p : Params) (s : Chain) (caller mintA escrowAddr : Pubkey)
    (v : Nat) :
    (refundFinal p s caller mintA escrowAddr v).escrows escrowAddr = none := by
  simp [refundFinal]

theorem refundFinal_escrows_other (p : Params) (s : Chain)
    (caller mintA escrowAddr : Pubkey) (v : Nat) (a : Pubkey) (h : a ≠ escrowAddr) :
    (refundFinal p s caller mintA escrowAddr v).escrows a = s.escrows a := by
  simp [refundFinal, fupd, h]

theorem refundFinal_lamports_caller (p : Params) (s : Chain)
    (caller mintA escrowAddr : Pubkey) (v : Nat) :
    (refundFinal p s caller mintA escrowAddr v).lamports caller =
      s.lamports caller + p.rentT + p.rentE := by
  show (fupd (fupd s.lamports caller (s.lamports caller + p.rentT)) caller
      (fupd s.lamports caller (s.lamports caller + p.rentT) caller + p.rentE)) caller = _
  rw [fupd_same, fupd_same]

theorem refundFinal_lamports_other (p : Params) (s : Chain)
    (caller mintA escrowAddr : Pubkey) (v : Nat) (a : Pubkey) (h : a ≠ caller) :
    (refundFinal p s caller mintA escrowAddr v).lamports a = s.lamports a := by
  show (fupd (fupd s.lamports caller (s.lamports caller + p.rentT)) caller
      (fupd s.lamports caller (s.lamports caller + p.rentT) caller + p.rentE)) a = _
  rw [fupd_other _ _ _ _ h, fupd_other _ _ _ _ h]

theorem takeL2_both_missing (p : Params) (s : Chain) (taker maker mintA mintB : Pubkey)
    (hA : s.tokenAccts (taker, mintA) = none) (hB : s.tokenAccts (maker, mintB) = none)
    (hne : ((maker, mintB) : Pubkey × Pubkey) ≠ (taker, mintA)) :
    takeL2 p s taker maker mintA mintB = s.lamports taker - p.rentT - p.rentT := by
  have hm1 : takeM1 s taker mintA (maker, mintB) = none := by
    rw [takeM1_apply, if_neg (fun hc => hne hc.2)]
    exact hB
  unfold takeL2 takeL1
  rw [hm1, hA]
  simp

theorem takeL2_a_present_b_missing (p : Params) (s : Chain)
    (taker maker mintA mintB : Pubkey)
    (hA : (s.tokenAccts (taker, mintA)).isSome = true)
    (hB : s.tokenAccts (maker, mintB) = none) :
    takeL2 p s taker maker mintA mintB = s.lamports taker - p.rentT := by
  rw [Option.isSome_iff_exists] at hA
  obtain ⟨ba, hA⟩ := hA
  have hm1 : takeM1 s taker mintA (maker, mintB) = none := by
    rw [takeM1_apply, hA]
    simp [hB]
  unfold takeL2 takeL1
  rw [hm1, hA]
  simp

theorem takeL2_both_present (p : Params) (s : Chain) (taker maker mintA mintB : Pubkey)
    (hA : (s.tokenAccts (taker, mintA)).isSome = true)
    (hB : (s.tokenAccts (maker, mintB)).isSome = true) :
    takeL2 p s taker maker mintA mintB = s.lamports taker := by
  rw [Option.isSome_iff_exists] at hA hB
  obtain ⟨ba, hA⟩ := hA
  obtain ⟨bb, hB⟩ := hB
  have hm1 : takeM1 s taker mintA (maker, mintB) = some bb := takeM1_some _ _ _ _ _ hB
  unfold takeL2 takeL1
  rw [hm1, hA]
  simp

theorem takeL2_a_missing_b_present (p : Params) (s : Chain)
    (taker maker mintA mintB : Pubkey)
    (hA : s.tokenAccts (taker, mintA) = none)
    (hB : (s.tokenAccts (maker, mintB)).isSome = true)
    (hne : ((maker, mintB) : Pubkey × Pubkey) ≠ (taker, mintA)) :
    takeL2 p s taker maker mintA mintB = s.lamports taker - p.rentT := by
  rw [Option.isSome_iff_exists] at hB
  obtain ⟨bb, hB⟩ := hB
  have hm1 : takeM1 s taker mintA (maker, mintB) = some bb := by
    rw [takeM1_apply, if_neg (fun hc => hne hc.2)]
    exact hB
  unfold takeL2 takeL1
  rw [hm1, hA]
  simp

/-! ## C7: take re-validates maker and both mints against the record -/

/-- Claim C7: `take` checks the caller-supplied `maker`, `mint_a` and
`mint_b` against the fields stored in the escrow record (the three
`has_one` constraints) before any transfer; if any of the three differs
from the record the instruction returns an error, and an erroring
instruction persists no state, so nothing changes. -/
theorem take_validates_record (p : Params) (s : Chain)
    (taker maker mintA mintB escrowAddr : Pubkey) (e : Escrow)
    (he : s.escrows escrowAddr = some e)
    (hmis : e.maker ≠ maker ∨ e.mint_a ≠ mintA ∨ e.mint_b ≠ mintB) :
    ∃ er, take p s taker maker mintA mintB escrowAddr = .error er := by
  cases h : take p s taker maker mintA mintB escrowAddr with
  | error er => exact ⟨er, rfl⟩
  | ok s' =>
    exfalso
    rw [take_ok_iff] at h
    obtain ⟨e', v, m3, m4, _, _, _, _, he', hm, ha, hb, _⟩ := h
    rw [he] at he'
    cases he'
    rcases hmis with hc | hc | hc
    · exact hc hm
    · exact hc ha
    · exact hc hb

/-- Witness for C7: calling `take` on the open escrow while naming `uT`
(not the recorded maker `uM`) as the maker is rejected. -/
theorem take_validates_record_witness :
    ∃ er, take pW sOpen uT uT tokA tokB eX = .error er :=
  take_validates_record pW sOpen uT uT tokA tokB eX eRec (by decide)
    (Or.inl (by decide))

/-! ## C1: the taker's payment comes before the vault drain -/

/-- A state like `sOpen` but where the taker holds only 10 of `tokB`,
too little to pay the 50 the record demands. -/
def sLow : Chain :=
  { sOpen with tokenAccts := fupd sOpen.tokenAccts (uT, tokB) (some 10) }

/-- Claim C1: in `take`, the payment transfer of `record.receive` of
`mint_b` from the taker precedes the vault drain (in the source,
`deposit()?` runs before `withdraw_and_close_vault()`), and when the
taker cannot cover the payment the whole instruction returns an error.
In the embedding an instruction either returns `.ok` with the complete
post-state or an error with no state at all, so on every such failing
execution the vault balance and the escrow record are exactly as before:
no partial fulfillment is ever persisted. -/
theorem take_payment_failure_rejects (p : Params) (s : Chain)
    (taker maker mintA mintB escrowAddr : Pubkey) (e : Escrow) (tb : Nat)
    (he : s.escrows escrowAddr = some e)
    (htb : s.tokenAccts (taker, mintB) = some tb)
    (hlt : tb < e.receive) :
    ∃ er, take p s taker maker mintA mintB escrowAddr = .error er := by
  cases h : take p s taker maker mintA mintB escrowAddr with
  | error er => exact ⟨er, rfl⟩
  | ok s' =>
    exfalso
    rw [take_ok_iff] at h
    obtain ⟨e', v, m3, m4, hu, hc2, hc3, hc4, he', hm, ha, hb, hseed, hv, ht1, ht2, h0, hs⟩ := h
    rw [he] at he'
    cases he'
    rw [transferChecked_ok_iff] at ht1
    obtain ⟨hsrc, hdst, hle, _⟩ := ht1
    rw [takeM2_some s taker maker mintA mintB _ _ htb] at hle
    simp only [Option.getD_some] at hle
    omega

/-- Witness for C1: with the taker holding 10 < 50 of `tokB`, `take` on
the open escrow is rejected. -/
theorem take_payment_failure_rejects_witness :
    ∃ er, take pW sLow uT uM tokA tokB eX = .error er :=
  take_payment_failure_rejects pW sLow uT uM tokA tokB eX eRec 10 (by decide)
    (by decide) (by decide)

/-! ## C3: both terminal operations drain the whole vault and close it -/

/-- Claim C3: a successful `take` transfers the vault's entire balance
(the amount `v` read from the vault account itself, not a caller input:
neither instruction has an amount parameter) to the taker's `mint_a`
account and deletes the vault; a successful `refund` transfers it to the
maker's `mint_a` account and deletes the vault.  After either terminal
instruction the vault account no longer exists. -/
theorem terminal_ops_drain_and_close_vault :
    (∀ (p : Params) (s : Chain) (taker maker mintA mintB escrowAddr : Pubkey)
      (s' : Chain) (v : Nat),
      s.tokenAccts (escrowAddr, mintA) = some v →
      mintA ≠ mintB →
      take p s taker maker mintA mintB escrowAddr = .ok s' →
      s'.tokenAccts (escrowAddr, mintA) = none ∧
      s'.tokenAccts (taker, mintA) = some ((s.tokenAccts (taker, mintA)).getD 0 + v)) ∧
    (∀ (p : Params) (s : Chain) (caller mintA escrowAddr : Pubkey) (s' : Chain) (v : Nat),
      s.tokenAccts (escrowAddr, mintA) = some v →
      refund p s caller mintA escrowAddr = .ok s' →
      s'.tokenAccts (escrowAddr, mintA) = none ∧
      s'.tokenAccts (caller, mintA) = some ((s.tokenAccts (caller, mintA)).getD 0 + v)) := by
  constructor
  · intro p s taker maker mintA mintB escrowAddr s' v hvault hab hok
    rw [take_ok_iff] at hok
    obtain ⟨e, v', m3, m4, hu, _, _, _, he, hm, ha, hb, hseed, hv, ht1, ht2, h0, rfl⟩ := hok
    have hta : taker ≠ escrowAddr := by
      rw [hseed]
      exact isUser_ne_derived hu maker e.seed
    have hva : ((escrowAddr, mintA) : Pubkey × Pubkey) ≠ (taker, mintA) :=
      fun hc => hta (congrArg Prod.fst hc).symm
    have hvb : ((escrowAddr, mintA) : Pubkey × Pubkey) ≠ (maker, mintB) := by
      intro hc
      rw [hseed] at hc
      exact derived_ne_base maker e.seed (congrArg Prod.fst hc)
    rw [takeM2_other s taker maker mintA mintB _ hva hvb, hvault] at hv
    cases hv
    exact ⟨takeFinal_vault_closed p s taker maker mintA mintB escrowAddr e v,
      takeFinal_taker_a p s taker maker mintA mintB escrowAddr e v hta hab⟩
  · intro p s caller mintA escrowAddr s' v hvault hok
    rw [refund_ok_iff] at hok
    obtain ⟨e, v', m1, hu, _, he, hma, hmk, hseed, hv, ht, h0, rfl⟩ := hok
    rw [hvault] at hv
    cases hv
    have hca : caller ≠ escrowAddr := by
      rw [hseed]
      exact isUser_ne_derived hu caller e.seed
    exact ⟨refundFinal_vault_closed p s caller mintA escrowAddr v,
      refundFinal_caller_a p s caller mintA escrowAddr v hca⟩

/-- Witness for C3: on the concrete open escrow holding 100 `tokA`, a
successful `take` leaves the vault deleted and the taker holding 100,
and a successful `refund` leaves the vault deleted and the maker holding
1000. -/
theorem terminal_ops_drain_and_close_vault_witness :
    (∃ s1, take pW sOpen uT uM tokA tokB eX = .ok s1 ∧
      s1.tokenAccts (eX, tokA) = none ∧ s1.tokenAccts (uT, tokA) = some 100) ∧
    (∃ s2, refund pW sOpen uM tokA eX = .ok s2 ∧
      s2.tokenAccts (eX, tokA) = none ∧ s2.tokenAccts (uM, tokA) = some 1000) := by
  constructor
  · cases h : take pW sOpen uT uM tokA tokB eX with
    | error er =>
      have hok : (take pW sOpen uT uM tokA tokB eX).isOk = true := by decide
      rw [h] at hok
      exact Bool.noConfusion hok
    | ok s1 =>
      have hc := terminal_ops_drain_and_close_vault.1 pW sOpen uT uM tokA tokB eX s1 100
        (by decide) (by decide) h
      exact ⟨s1, rfl, hc.1, hc.2.trans (by decide)⟩
  · cases h : refund pW sOpen uM tokA eX with
    | error er =>
      have hok : (refund pW sOpen uM tokA eX).isOk = true := by decide
      rw [h] at hok
      exact Bool.noConfusion hok
    | ok s2 =>
      have hc := terminal_ops_drain_and_close_vault.2 pW sOpen uM tokA eX s2 100
        (by decide) h
      exact ⟨s2, rfl, hc.1, hc.2.trans (by decide)⟩

/-! ## C2: conservation of a successful take -/

/-- A state like `sOpen` but where the maker holds 60 of `tokB`, enough to
pay the escrow's own price: the maker can then fulfill their own escrow. -/
def sSelf : Chain :=
  { sOpen with tokenAccts := fupd sOpen.tokenAccts (uM, tokB) (some 60) }

/-- Counterexample to C2 as stated: nothing in `take` requires the taker
to differ from the maker.  With taker = maker = `uM`, the payment is a
self-transfer: the fulfil succeeds, `record.receive = 50 ≠ 0`, and yet
the maker's `tokB` balance stays exactly 60 — it does not increase by 50,
and the taker's `tokB` balance (the same account) does not decrease by
50.  So the claim's per-party balance deltas are false without a
taker-is-not-maker hypothesis. -/
theorem take_conservation_counterexample :
    (take pW sSelf uM uM tokA tokB eX).map (fun s1 => s1.tokenAccts (uM, tokB)) =
      .ok (some 60) ∧
    sSelf.tokenAccts (uM, tokB) = some 60 ∧ eRec.receive = 50 := by
  decide

/-- Claim C2 (amended): for a successful `take` in which the taker and
maker are distinct identities and the two assets are distinct mints, the
taker's `mint_a` balance increases by exactly the amount the vault held,
the maker's `mint_b` balance increases by exactly `record.receive`, the
taker's `mint_b` balance decreases by exactly `record.receive` (which the
taker provably covered), the vault is emptied and closed, and every other
token account is unchanged. -/
theorem take_conservation (p : Params) (s : Chain)
    (taker maker mintA mintB escrowAddr : Pubkey) (s' : Chain) (e : Escrow) (v : Nat)
    (htm : taker ≠ maker) (hab : mintA ≠ mintB)
    (he : s.escrows escrowAddr = some e)
    (hvault : s.tokenAccts (escrowAddr, mintA) = some v)
    (hok : take p s taker maker mintA mintB escrowAddr = .ok s') :
    s'.tokenAccts (taker, mintA) = some ((s.tokenAccts (taker, mintA)).getD 0 + v) ∧
    s'.tokenAccts (maker, mintB) = some ((s.tokenAccts (maker, mintB)).getD 0 + e.receive) ∧
    s'.tokenAccts (taker, mintB) = some ((s.tokenAccts (taker, mintB)).getD 0 - e.receive) ∧
    e.receive ≤ (s.tokenAccts (taker, mintB)).getD 0 ∧
    s'.tokenAccts (escrowAddr, mintA) = none ∧
    (∀ k, k ≠ (taker, mintA) → k ≠ (taker, mintB) → k ≠ (maker, mintB) →
      k ≠ (escrowAddr, mintA) → s'.tokenAccts k = s.tokenAccts k) := by
  rw [take_ok_iff] at hok
  obtain ⟨e', v', m3, m4, hu, _, _, _, he', hm, ha, hb, hseed, hv, ht1, ht2, h0, rfl⟩ := hok
  rw [he] at he'
  cases he'
  have hta : taker ≠ escrowAddr := by
    rw [hseed]
    exact isUser_ne_derived hu maker e.seed
  have hva : ((escrowAddr, mintA) : Pubkey × Pubkey) ≠ (taker, mintA) :=
    fun hc => hta (congrArg Prod.fst hc).symm
  have hvb : ((escrowAddr, mintA) : Pubkey × Pubkey) ≠ (maker, mintB) := by
    intro hc
    rw [hseed] at hc
    exact derived_ne_base maker e.seed (congrArg Prod.fst hc)
  rw [takeM2_other s taker maker mintA mintB _ hva hvb, hvault] at hv
  cases hv
  have hrecv : e.receive ≤ (s.tokenAccts (taker, mintB)).getD 0 := by
    rw [transferChecked_ok_iff] at ht1
    have hle := ht1.2.2.1
    rw [takeM2_getD] at hle
    exact hle
  refine ⟨takeFinal_taker_a p s taker maker mintA mintB escrowAddr e v hta hab,
    takeFinal_maker_b p s taker maker mintA mintB escrowAddr e v (Ne.symm htm)
      (Ne.symm hab),
    takeFinal_taker_b p s taker maker mintA mintB escrowAddr e v htm (Ne.symm hab),
    hrecv,
    takeFinal_vault_closed p s taker maker mintA mintB escrowAddr e v,
    fun k h1 h2 h3 h4 =>
      takeFinal_tokenAccts_other p s taker maker mintA mintB escrowAddr e v k h1 h2 h3 h4⟩

/-- Witness for the amended C2 on the concrete open escrow: the taker ends
with 100 `tokA` (the vault's whole deposit) and 150 `tokB`, the maker ends
with 60 `tokB`, the vault is gone, and a bystander account (the maker's
`tokA` account) is untouched at 900. -/
theorem take_conservation_witness :
    ∃ s1, take pW sOpen uT uM tokA tokB eX = .ok s1 ∧
      s1.tokenAccts (uT, tokA) = some 100 ∧
      s1.tokenAccts (uM, tokB) = some 60 ∧
      s1.tokenAccts (uT, tokB) = some 150 ∧
      s1.tokenAccts (eX, tokA) = none ∧
      s1.tokenAccts (uM, tokA) = some 900 := by
  cases h : take pW sOpen uT uM tokA tokB eX with
  | error er =>
    have hok : (take pW sOpen uT uM tokA tokB eX).isOk = true := by decide
    rw [h] at hok
    exact Bool.noConfusion hok
  | ok s1 =>
    have hc := take_conservation pW sOpen uT uM tokA tokB eX s1 eRec 100
      (by decide) (by decide) (by decide) (by decide) h
    exact ⟨s1, rfl, hc.1.trans (by decide), hc.2.1.trans (by decide),
      hc.2.2.1.trans (by decide), hc.2.2.2.2.1,
      (hc.2.2.2.2.2 (uM, tokA) (by decide) (by decide) (by decide) (by decide)).trans
        (by decide)⟩

/-! ## C4: destination of the vault's residual lamports -/

/-- Counterexample to C4 as stated: on the Fulfill path the vault's
residual (rent-exempt) balance is sent to the **taker**, not to the maker
who paid for the vault's creation.  In the concrete run both parties start
with 40 lamports and the vault's rent is `pW.rentT = 5`; after `take` the
maker holds 47 (40 + the record's rent 7) and the taker holds 45
(40 + the vault's rent 5).  Were the residual returned to the maker on
both terminal paths, the maker would hold 52 and the taker 40 — the code
(take.rs, `CloseAccount { destination: self.taker ... }`) contradicts the
claim on the Fulfill path. -/
theorem vault_rent_destination_counterexample :
    (take pW sOpen uT uM tokA tokB eX).map (fun s1 => (s1.lamports uM, s1.lamports uT)) =
      .ok (47, 45) ∧
    sOpen.lamports uM = 40 ∧ sOpen.lamports uT = 40 ∧ pW.rentT = 5 ∧ pW.rentE = 7 := by
  decide

/-- Claim C4 (amended): when the vault is destroyed at Cancel, its
residual balance goes to the maker (together with the record's rent); when
it is destroyed at Fulfill, the record's rent goes to the maker but the
vault's residual balance goes to the taker who called `take`, not to the
maker who paid for the vault's creation. -/
theorem rent_destinations :
    (∀ (p : Params) (s : Chain) (taker maker mintA mintB escrowAddr : Pubkey) (s' : Chain),
      taker ≠ maker →
      take p s taker maker mintA mintB escrowAddr = .ok s' →
      s'.lamports maker = s.lamports maker + p.rentE ∧
      s'.lamports taker = takeL2 p s taker maker mintA mintB + p.rentT) ∧
    (∀ (p : Params) (s : Chain) (caller mintA escrowAddr : Pubkey) (s' : Chain),
      refund p s caller mintA escrowAddr = .ok s' →
      s'.lamports caller = s.lamports caller + p.rentT + p.rentE) := by
  constructor
  · intro p s taker maker mintA mintB escrowAddr s' htm hok
    rw [take_ok_iff] at hok
    obtain ⟨e, v, m3, m4, _, _, _, _, _, _, _, _, _, _, _, _, _, rfl⟩ := hok
    exact ⟨takeFinal_lamports_maker p s taker maker mintA mintB escrowAddr e v
        (Ne.symm htm),
      takeFinal_lamports_taker p s taker maker mintA mintB escrowAddr e v htm⟩
  · intro p s caller mintA escrowAddr s' hok
    rw [refund_ok_iff] at hok
    obtain ⟨e, v, m1, _, _, _, _, _, _, _, _, _, rfl⟩ := hok
    exact refundFinal_lamports_caller p s caller mintA escrowAddr v

/-- Witness for the amended C4: on the concrete open escrow, `take` pays
the maker the record rent only (40 to 47) and the taker the vault rent
(40 to 45), while `refund` pays the maker both rents (40 to 52). -/
theorem rent_destinations_witness :
    (∃ s1, take pW sOpen uT uM tokA tokB eX = .ok s1 ∧
      s1.lamports uM = 47 ∧ s1.lamports uT = 45) ∧
    (∃ s2, refund pW sOpen uM tokA eX = .ok s2 ∧ s2.lamports uM = 52) := by
  constructor
  · cases h : take pW sOpen uT uM tokA tokB eX with
    | error er =>
      have hok : (take pW sOpen uT uM tokA tokB eX).isOk = true := by decide
      rw [h] at hok
      exact Bool.noConfusion hok
    | ok s1 =>
      have hc := rent_destinations.1 pW sOpen uT uM tokA tokB eX s1 (by decide) h
      exact ⟨s1, rfl, hc.1.trans (by decide), hc.2.trans (by decide)⟩
  · cases h : refund pW sOpen uM tokA eX with
    | error er =>
      have hok : (refund pW sOpen uM tokA eX).isOk = true := by decide
      rw [h] at hok
      exact Bool.noConfusion hok
    | ok s2 =>
      have hc := rent_destinations.2 pW sOpen uM tokA eX s2 h
      exact ⟨s2, rfl, hc.trans (by decide)⟩

/-! ## C10: who bears the ATA creation cost at take -/

/-- A state like `sOpen` but where the maker has no `tokB` token account:
`take` must create it (`init_if_needed`, payer = taker). -/
def sOne : Chain :=
  { sOpen with tokenAccts := fupd sOpen.tokenAccts (uM, tokB) none }

/-- A state like `sOpen` but where both the taker's `tokA` account and the
maker's `tokB` account are missing: `take` must create both at the
taker's expense. -/
def sNone : Chain :=
  { sOpen with
    tokenAccts := fupd (fupd sOpen.tokenAccts (uM, tokB) none) (uT, tokA) none }

/-- Counterexample to C10 as stated: in a run where exactly one missing
account (the maker's `tokB` ATA) is created, the taker pays its rent
(5 lamports) but also receives the closed vault's rent (5 lamports), so
the taker's base-currency balance ends unchanged at 40 — it does not
decrease.  The claim's ``not compensated by the escrow'' and the
resulting strict decrease are false: the vault's residual balance is paid
to the taker at close (take.rs). -/
theorem take_creation_cost_counterexample :
    (take pW sOne uT uM tokA tokB eX).map (fun s1 => s1.lamports uT) = .ok 40 ∧
    sOne.lamports uT = 40 ∧ sOne.tokenAccts (uM, tokB) = none ∧ pW.rentT = 5 := by
  decide

/-- Claim C10 (amended): missing `taker_ata_a` / `maker_ata_b` accounts are
created with rent paid from the taker's lamports, but the taker also
receives the vault's rent at close.  Net effect on the taker's lamports in
a successful `take` by a taker distinct from the maker, covering all four
creation configurations: both accounts missing — down by one token-account
rent (a strict decrease whenever the rent is positive); exactly one of the
two missing (either `maker_ata_b` alone or `taker_ata_a` alone) —
unchanged; both present — up by one token-account rent.  So the taker's
base-currency balance decreases exactly when both accounts must be
created. -/
theorem take_rent_accounting (p : Params) (s : Chain)
    (taker maker mintA mintB escrowAddr : Pubkey) (s' : Chain)
    (htm : taker ≠ maker)
    (hok : take p s taker maker mintA mintB escrowAddr = .ok s') :
    (s.tokenAccts (taker, mintA) = none → s.tokenAccts (maker, mintB) = none →
      s'.lamports taker = s.lamports taker - p.rentT ∧
      (0 < p.rentT → s'.lamports taker < s.lamports taker)) ∧
    ((s.tokenAccts (taker, mintA)).isSome = true → s.tokenAccts (maker, mintB) = none →
      s'.lamports taker = s.lamports taker) ∧
    ((s.tokenAccts (taker, mintA)).isSome = true →
      (s.tokenAccts (maker, mintB)).isSome = true →
      s'.lamports taker = s.lamports taker + p.rentT) ∧
    (s.tokenAccts (taker, mintA) = none →
      (s.tokenAccts (maker, mintB)).isSome = true →
      s'.lamports taker = s.lamports taker) := by
  rw [take_ok_iff] at hok
  obtain ⟨e, v, m3, m4, hu, hc2, hc3, hc4, _, _, _, _, _, _, _, _, _, rfl⟩ := hok
  have hlam := takeFinal_lamports_taker p s taker maker mintA mintB escrowAddr e v htm
  have hne : ((maker, mintB) : Pubkey × Pubkey) ≠ (taker, mintA) :=
    fun hc => htm (congrArg Prod.fst hc).symm
  refine ⟨?_, ?_, ?_, ?_⟩
  · intro hA hB
    have hL1 : takeL1 p s taker mintA = s.lamports taker - p.rentT := by
      unfold takeL1
      rw [hA]
      simp
    have b1 : p.rentT ≤ s.lamports taker := hc2 (by rw [hA]; rfl)
    have hm1 : takeM1 s taker mintA (maker, mintB) = none := by
      rw [takeM1_apply, if_neg (fun hc => hne hc.2)]
      exact hB
    have b2 : p.rentT ≤ takeL1 p s taker mintA := hc4 (by rw [hm1]; rfl)
    rw [hL1] at b2
    rw [hlam, takeL2_both_missing p s taker maker mintA mintB hA hB hne]
    omega
  · intro hA hB
    have hm1 : takeM1 s taker mintA (maker, mintB) = none := by
      rw [takeM1_apply]
      rw [Option.isSome_iff_exists] at hA
      obtain ⟨ba, hA⟩ := hA
      rw [hA]
      simp [hB]
    have hL1 : takeL1 p s taker mintA = s.lamports taker := by
      unfold takeL1
      rw [Option.isSome_iff_exists] at hA
      obtain ⟨ba, hA⟩ := hA
      rw [hA]
      simp
    have b2 : p.rentT ≤ takeL1 p s taker mintA := hc4 (by rw [hm1]; rfl)
    rw [hL1] at b2
    rw [hlam, takeL2_a_present_b_missing p s taker maker mintA mintB hA hB]
    omega
  · intro hA hB
    rw [hlam, takeL2_both_present p s taker maker mintA mintB hA hB]
  · intro hA hB
    have b1 : p.rentT ≤ s.lamports taker := hc2 (by rw [hA]; rfl)
    rw [hlam, takeL2_a_missing_b_present p s taker maker mintA mintB hA hB hne]
    omega

/-- A state like `sOpen` but where only the taker's `tokA` account is
missing: `take` must create it while the maker's `tokB` account exists. -/
def sAonly : Chain :=
  { sOpen with tokenAccts := fupd sOpen.tokenAccts (uT, tokA) none }

/-- Witness for the amended C10: with both ATAs missing and rent 5, the
taker's lamports drop from 40 to 35 across the successful `take`; with
only `taker_ata_a` missing they end unchanged at 40. -/
theorem take_rent_accounting_witness :
    (∃ s1, take pW sNone uT uM tokA tokB eX = .ok s1 ∧ s1.lamports uT = 35) ∧
    (∃ s2, take pW sAonly uT uM tokA tokB eX = .ok s2 ∧ s2.lamports uT = 40) := by
  constructor
  · cases h : take pW sNone uT uM tokA tokB eX with
    | error er =>
      have hok : (take pW sNone uT uM tokA tokB eX).isOk = true := by decide
      rw [h] at hok
      exact Bool.noConfusion hok
    | ok s1 =>
      have hc := (take_rent_accounting pW sNone uT uM tokA tokB eX s1 (by decide) h).1
        (by decide) (by decide)
      exact ⟨s1, rfl, hc.1.trans (by decide)⟩
  · cases h : take pW sAonly uT uM tokA tokB eX with
    | error er =>
      have hok : (take pW sAonly uT uM tokA tokB eX).isOk = true := by decide
      rw [h] at hok
      exact Bool.noConfusion hok
    | ok s2 =>
      have hc := (take_rent_accounting pW sAonly uT uM tokA tokB eX s2 (by decide)
        h).2.2.2 (by decide) (by decide)
      exact ⟨s2, rfl, hc.trans (by decide)⟩

/-! ## C9: Open validates no amounts; a zero-price escrow is takeable -/

/-- Claim C9: `make` performs no validation on the two amounts: with
well-formed accounts and the maker holding at least `deposit`, it succeeds
for every `deposit` and `receive`, including zero (first conjunct, with
`receive` arbitrary).  An escrow opened with `receive = 0` can then be
fulfilled by any taker with existing token accounts: the composed
`make`-then-`take` succeeds, the taker pays zero `mint_b` (their `mint_b`
balance is unchanged) and receives the entire vault deposit (second
conjunct). -/
theorem make_no_amount_validation (p : Params) (s : Chain)
    (maker mintA mintB taker : Pubkey) (seed deposit receive ba ta tb mb : Nat)
    (hu : maker.isUser = true)
    (hA : s.tokenAccts (maker, mintA) = some ba)
    (hfree : s.escrows (deriveEscrowAddr maker seed) = none)
    (hvfree : s.tokenAccts (deriveEscrowAddr maker seed, mintA) = none)
    (hlam : p.rentE + p.rentT ≤ s.lamports maker)
    (hdep : deposit ≤ ba) (hdu : deposit ≤ UMAX) :
    (∃ s1, make p s maker mintA mintB seed deposit receive = .ok s1 ∧
      s1.escrows (deriveEscrowAddr maker seed) =
        some ⟨seed, maker, mintA, mintB, receive, canonicalBump⟩) ∧
    (taker.isUser = true → taker ≠ maker → mintA ≠ mintB →
      s.tokenAccts (taker, mintA) = some ta →
      s.tokenAccts (taker, mintB) = some tb →
      s.tokenAccts (maker, mintB) = some mb →
      ta + deposit ≤ UMAX → mb ≤ UMAX →
      ∃ s2, (make p s maker mintA mintB seed deposit 0 >>=
          fun s1 => take p s1 taker maker mintA mintB (deriveEscrowAddr maker seed)) =
            .ok s2 ∧
        s2.tokenAccts (taker, mintA) = some (ta + deposit) ∧
        s2.tokenAccts (taker, mintB) = some tb) := by
  have hmk : ∀ r, make p s maker mintA mintB seed deposit r =
      .ok (makeFinal p s maker mintA mintB seed deposit r) := by
    intro r
    rw [make_ok_iff]
    refine ⟨hu, by rw [hA]; rfl, hfree, by omega, hvfree, by omega, ?_, hdu, rfl⟩
    rw [hA]
    simpa using hdep
  constructor
  · exact ⟨makeFinal p s maker mintA mintB seed deposit receive, hmk receive,
      makeFinal_escrows_at p s maker mintA mintB seed deposit receive⟩
  · intro htu htm hab hta htb hmb hov hmbU
    have hXt : taker ≠ deriveEscrowAddr maker seed := isUser_ne_derived htu maker seed
    have hXm : maker ≠ deriveEscrowAddr maker seed := base_ne_derived maker seed
    have h1a : (makeFinal p s maker mintA mintB seed deposit 0).tokenAccts
        (taker, mintA) = some ta := by
      rw [makeFinal_tokenAccts_other p s maker mintA mintB seed deposit 0 _
        (fun hc => hXt (congrArg Prod.fst hc)) (fun hc => htm (congrArg Prod.fst hc))]
      exact hta
    have h1b : (makeFinal p s maker mintA mintB seed deposit 0).tokenAccts
        (taker, mintB) = some tb := by
      rw [makeFinal_tokenAccts_other p s maker mintA mintB seed deposit 0 _
        (fun hc => hab (congrArg Prod.snd hc).symm) (fun hc => htm (congrArg Prod.fst hc))]
      exact htb
    have h1mb : (makeFinal p s maker mintA mintB seed deposit 0).tokenAccts
        (maker, mintB) = some mb := by
      rw [makeFinal_tokenAccts_other p s maker mintA mintB seed deposit 0 _
        (fun hc => hXm (congrArg Prod.fst hc))
        (fun hc => hab (congrArg Prod.snd hc).symm)]
      exact hmb
    have h1v : (makeFinal p s maker mintA mintB seed deposit 0).tokenAccts
        (deriveEscrowAddr maker seed, mintA) = some deposit :=
      makeFinal_vault p s maker mintA mintB seed deposit 0
    have h1e : (makeFinal p s maker mintA mintB seed deposit 0).escrows
        (deriveEscrowAddr maker seed) =
        some ⟨seed, maker, mintA, mintB, 0, canonicalBump⟩ :=
      makeFinal_escrows_at p s maker mintA mintB seed deposit 0
    have hkmb : ((maker, mintB) : Pubkey × Pubkey) ≠ (taker, mintB) :=
      fun hc => htm (congrArg Prod.fst hc).symm
    have hkXb : ((deriveEscrowAddr maker seed, mintA) : Pubkey × Pubkey) ≠
        (taker, mintB) := fun hc => hXt (congrArg Prod.fst hc).symm
    have hkXmb : ((deriveEscrowAddr maker seed, mintA) : Pubkey × Pubkey) ≠
        (maker, mintB) := fun hc => hXm (congrArg Prod.fst hc).symm
    have hktaB : ((taker, mintA) : Pubkey × Pubkey) ≠ (taker, mintB) :=
      fun hc => hab (congrArg Prod.snd hc)
    have hktaMb : ((taker, mintA) : Pubkey × Pubkey) ≠ (maker, mintB) :=
      fun hc => htm (congrArg Prod.fst hc)
    have hktaX : ((taker, mintA) : Pubkey × Pubkey) ≠
        (deriveEscrowAddr maker seed, mintA) := fun hc => hXt (congrArg Prod.fst hc)
    have ht1 : transferChecked
        (takeM2 (makeFinal p s maker mintA mintB seed deposit 0) taker maker mintA mintB)
        (taker, mintB) (maker, mintB) (0 : Nat) =
        .ok (xferFinal
          (takeM2 (makeFinal p s maker mintA mintB seed deposit 0) taker maker mintA mintB)
          (taker, mintB) (maker, mintB) 0) := by
      rw [transferChecked_ok_iff]
      refine ⟨?_, ?_, Nat.zero_le _, ?_, rfl⟩
      · rw [takeM2_some _ taker maker mintA mintB _ _ h1b]
        rfl
      · rw [takeM2_some _ taker maker mintA mintB _ _ h1mb]
        rfl
      · rw [fupd_other _ _ _ _ hkmb, takeM2_some _ taker maker mintA mintB _ _ h1mb]
        simpa using hmbU
    have hmX : (xferFinal
        (takeM2 (makeFinal p s maker mintA mintB seed deposit 0) taker maker mintA mintB)
        (taker, mintB) (maker, mintB) 0) (deriveEscrowAddr maker seed, mintA) =
        some deposit := by
      rw [xferFinal_other _ _ _ _ _ hkXb hkXmb,
        takeM2_some _ taker maker mintA mintB _ _ h1v]
    have hmT : (xferFinal
        (takeM2 (makeFinal p s maker mintA mintB seed deposit 0) taker maker mintA mintB)
        (taker, mintB) (maker, mintB) 0) (taker, mintA) = some ta := by
      rw [xferFinal_other _ _ _ _ _ hktaB hktaMb,
        takeM2_some _ taker maker mintA mintB _ _ h1a]
    have ht2 : transferChecked
        (xferFinal
          (takeM2 (makeFinal p s maker mintA mintB seed deposit 0) taker maker mintA mintB)
          (taker, mintB) (maker, mintB) 0)
        (deriveEscrowAddr maker seed, mintA) (taker, mintA) deposit =
        .ok (xferFinal (xferFinal
          (takeM2 (makeFinal p s maker mintA mintB seed deposit 0) taker maker mintA mintB)
          (taker, mintB) (maker, mintB) 0)
          (deriveEscrowAddr maker seed, mintA) (taker, mintA) deposit) := by
      rw [transferChecked_ok_iff]
      refine ⟨?_, ?_, ?_, ?_, rfl⟩
      · rw [hmX]
        rfl
      · rw [hmT]
        rfl
      · rw [hmX]
        exact Nat.le_refl deposit
      · rw [fupd_other _ _ _ _ hktaX, hmT]
        simpa using hov
    have htake : take p (makeFinal p s maker mintA mintB seed deposit 0)
        taker maker mintA mintB (deriveEscrowAddr maker seed) =
        .ok (takeFinal p (makeFinal p s maker mintA mintB seed deposit 0)
          taker maker mintA mintB (deriveEscrowAddr maker seed)
          ⟨seed, maker, mintA, mintB, 0, canonicalBump⟩ deposit) := by
      rw [take_ok_iff]
      refine ⟨⟨seed, maker, mintA, mintB, 0, canonicalBump⟩, deposit, _, _, htu,
        ?_, ?_, ?_, h1e, rfl, rfl, rfl, rfl, ?_, ht1, ht2, ?_, rfl⟩
      · intro hn
        rw [h1a] at hn
        simp at hn
      · rw [takeM1_some _ taker mintA _ _ h1b]
        rfl
      · intro hn
        rw [takeM1_some _ taker mintA _ _ h1mb] at hn
        simp at hn
      · exact takeM2_some _ taker maker mintA mintB _ _ h1v
      · rw [xferFinal_src _ _ _ _ (fun hc => hXt (congrArg Prod.fst hc).symm), hmX]
        simp
    refine ⟨takeFinal p (makeFinal p s maker mintA mintB seed deposit 0)
        taker maker mintA mintB (deriveEscrowAddr maker seed)
        ⟨seed, maker, mintA, mintB, 0, canonicalBump⟩ deposit, ?_, ?_, ?_⟩
    · rw [hmk 0]
      exact htake
    · rw [takeFinal_taker_a p _ taker maker mintA mintB _ _ deposit hXt hab, h1a]
      rfl
    · rw [takeFinal_taker_b p _ taker maker mintA mintB _ _ deposit htm (Ne.symm hab),
        h1b]
      simp

/-- A chain state with no escrow yet: both parties hold token accounts and
lamports, the derived address for `(uM, 3)` is unoccupied. -/
def sFresh : Chain :=
  { escrows := fun _ => none
    tokenAccts := fun k =>
      if k = (uM, tokA) then some 900
      else if k = (uM, tokB) then some 10
      else if k = (uT, tokA) then some 2
      else if k = (uT, tokB) then some 200
      else none
    lamports := fun a => if a = uM then 40 else if a = uT then 40 else 0 }

/-- Witness for C9: `make` succeeds with receive 77, and the composed
`make` with receive 0 followed by `take` succeeds, paying the taker the
whole 100-token deposit while the taker's `tokB` balance stays 200. -/
theorem make_no_amount_validation_witness :
    (∃ s1, make pW sFresh uM tokA tokB 3 100 77 = .ok s1 ∧
      s1.escrows (deriveEscrowAddr uM 3) = some ⟨3, uM, tokA, tokB, 77, canonicalBump⟩) ∧
    (∃ s2, (make pW sFresh uM tokA tokB 3 100 0 >>=
        fun s1 => take pW s1 uT uM tokA tokB (deriveEscrowAddr uM 3)) = .ok s2 ∧
      s2.tokenAccts (uT, tokA) = some 102 ∧ s2.tokenAccts (uT, tokB) = some 200) := by
  have h := make_no_amount_validation pW sFresh uM tokA tokB uT 3 100 77 900 2 200 10
    (by decide) (by decide) (by decide) (by decide) (by decide) (by decide) (by decide)
  constructor
  · exact h.1
  · obtain ⟨s2, hs2, hta2, htb2⟩ := h.2 (by decide) (by decide) (by decide) (by decide)
      (by decide) (by decide) (by decide) (by decide)
    exact ⟨s2, hs2, hta2.trans (by decide), htb2⟩

/-! ## C8: the record/vault pairing invariant over all reachable states -/

/-- A pristine chain: no escrow record anywhere, and no token account under
any program-derived authority (custody accounts exist only once the program
creates them). -/
def InitChain (s : Chain) : Prop :=
  (∀ a, s.escrows a = none) ∧
  (∀ (mk : Pubkey) (sd : Nat) (mint : Pubkey),
    s.tokenAccts (Pubkey.derived mk sd, mint) = none)

/-- The states reachable from a pristine chain by any sequence of the three
instructions, together with a ghost map recording, for each open escrow
address, the amount deposited when it was opened. -/
inductive Reach (p : Params) : Chain → (Pubkey → Option Nat) → Prop where
  | init (s : Chain) (h : InitChain s) : Reach p s (fun _ => none)
  | step_make (s : Chain) (g : Pubkey → Option Nat) (maker mintA mintB : Pubkey)
      (seed deposit receive : Nat) (s' : Chain) (h : Reach p s g)
      (hs : make p s maker mintA mintB seed deposit receive = .ok s') :
      Reach p s' (fupd g (deriveEscrowAddr maker seed) (some deposit))
  | step_take (s : Chain) (g : Pubkey → Option Nat)
      (taker maker mintA mintB escrowAddr : Pubkey) (s' : Chain) (h : Reach p s g)
      (hs : take p s taker maker mintA mintB escrowAddr = .ok s') :
      Reach p s' (fupd g escrowAddr none)
  | step_refund (s : Chain) (g : Pubkey → Option Nat) (caller mintA escrowAddr : Pubkey)
      (s' : Chain) (h : Reach p s g)
      (hs : refund p s caller mintA escrowAddr = .ok s') :
      Reach p s' (fupd g escrowAddr none)

/-- The pairing invariant: every escrow record sits at the address derived
from its own maker and seed, its maker is a user key, its paired vault
exists and holds exactly the ghost-recorded deposit, and the record owns no
other token account; conversely, at any derived address without a record
there is no token account at all (in particular no orphaned vault). -/
def Paired (s : Chain) (g : Pubkey → Option Nat) : Prop :=
  (∀ addr e, s.escrows addr = some e →
    e.maker.isUser = true ∧
    addr = deriveEscrowAddr e.maker e.seed ∧
    (∃ d, g addr = some d ∧ s.tokenAccts (addr, e.mint_a) = some d) ∧
    (∀ mint, mint ≠ e.mint_a → s.tokenAccts (addr, mint) = none)) ∧
  (∀ (mk : Pubkey) (sd : Nat) (mint : Pubkey),
    s.escrows (Pubkey.derived mk sd) = none →
    s.tokenAccts (Pubkey.derived mk sd, mint) = none)

/-- Claim C8: in every state reachable by any sequence of Open, Fulfill and
Cancel, an escrow record exists at a derived address if and only if its
paired vault exists — and the vault then holds exactly the amount deposited
at Open (tracked by the ghost map).  `make` creates record and vault
together, and each of `take` and `refund` destroys both together; no
reachable state has one without the other. -/
theorem escrow_vault_pairing (p : Params) (s : Chain) (g : Pubkey → Option Nat)
    (h : Reach p s g) : Paired s g := by
  induction h with
  | init s h =>
    constructor
    · intro addr e he
      rw [h.1 addr] at he
      exact Option.noConfusion he
    · intro mk sd mint _
      exact h.2 mk sd mint
  | step_make s g maker mintA mintB seed deposit receive s' h hs ih =>
    rw [make_ok_iff] at hs
    obtain ⟨hu, hA, hfree, _, hvfree, _, _, _, rfl⟩ := hs
    constructor
    · intro addr e he
      by_cases hx : addr = deriveEscrowAddr maker seed
      · subst hx
        rw [makeFinal_escrows_at] at he
        cases he
        refine ⟨hu, rfl, ⟨deposit, fupd_same _ _ _, makeFinal_vault _ _ _ _ _ _ _ _⟩, ?_⟩
        intro mint hmint
        rw [makeFinal_tokenAccts_other p s maker mintA mintB seed deposit receive _
          (fun hc => hmint (congrArg Prod.snd hc))
          (fun hc => derived_ne_base maker seed (congrArg Prod.fst hc))]
        exact ih.2 maker seed mint hfree
      · rw [makeFinal_escrows_other p s maker mintA mintB seed deposit receive _ hx] at he
        obtain ⟨hmu, haddr, ⟨d, hg, hvlt⟩, hoth⟩ := ih.1 addr e he
        have hnm : addr ≠ maker := fun hc =>
          isUser_ne_derived hu e.maker e.seed (hc.symm.trans haddr)
        refine ⟨hmu, haddr, ⟨d, ?_, ?_⟩, ?_⟩
        · rw [fupd_other _ _ _ _ hx]
          exact hg
        · rw [makeFinal_tokenAccts_other p s maker mintA mintB seed deposit receive _
            (fun hc => hx (congrArg Prod.fst hc))
            (fun hc => hnm (congrArg Prod.fst hc))]
          exact hvlt
        · intro mint hmint
          rw [makeFinal_tokenAccts_other p s maker mintA mintB seed deposit receive _
            (fun hc => hx (congrArg Prod.fst hc))
            (fun hc => hnm (congrArg Prod.fst hc))]
          exact hoth mint hmint
    · intro mk sd mint hnone
      by_cases hx : Pubkey.derived mk sd = deriveEscrowAddr maker seed
      · rw [hx, makeFinal_escrows_at] at hnone
        exact Option.noConfusion hnone
      · rw [makeFinal_escrows_other p s maker mintA mintB seed deposit receive _ hx]
          at hnone
        rw [makeFinal_tokenAccts_other p s maker mintA mintB seed deposit receive _
          (fun hc => hx (congrArg Prod.fst hc))
          (fun hc => isUser_ne_derived hu mk sd (congrArg Prod.fst hc).symm)]
        exact ih.2 mk sd mint hnone
  | step_take s g taker maker mintA mintB escrowAddr s' h hs ih =>
    rw [take_ok_iff] at hs
    obtain ⟨e0, v, m3, m4, hu, _, _, _, he0, hm, ha, hb, hseed, hv, _, _, _, rfl⟩ := hs
    obtain ⟨hmu, haddr0, _, hoth0⟩ := ih.1 escrowAddr e0 he0
    have hmaker_user : maker.isUser = true := hm ▸ hmu
    constructor
    · intro addr e he
      by_cases hx : addr = escrowAddr
      · rw [hx, takeFinal_escrows_at] at he
        exact Option.noConfusion he
      · rw [takeFinal_escrows_other p s taker maker mintA mintB escrowAddr e0 v _ hx]
          at he
        obtain ⟨hu2, haddr2, ⟨d2, hg2, hv2⟩, hoth2⟩ := ih.1 addr e he
        have hna : ∀ mint : Pubkey,
            ((addr, mint) : Pubkey × Pubkey) ≠ (taker, mintA) ∧
            (addr, mint) ≠ (taker, mintB) ∧ (addr, mint) ≠ (maker, mintB) ∧
            (addr, mint) ≠ (escrowAddr, mintA) := by
          intro mint
          refine ⟨fun hc => isUser_ne_derived hu e.maker e.seed
              ((congrArg Prod.fst hc).symm.trans haddr2),
            fun hc => isUser_ne_derived hu e.maker e.seed
              ((congrArg Prod.fst hc).symm.trans haddr2),
            fun hc => isUser_ne_derived hmaker_user e.maker e.seed
              ((congrArg Prod.fst hc).symm.trans haddr2),
            fun hc => hx (congrArg Prod.fst hc)⟩
        refine ⟨hu2, haddr2, ⟨d2, ?_, ?_⟩, ?_⟩
        · rw [fupd_other _ _ _ _ hx]
          exact hg2
        · rw [takeFinal_tokenAccts_other p s taker maker mintA mintB escrowAddr e0 v _
            (hna e.mint_a).1 (hna e.mint_a).2.1 (hna e.mint_a).2.2.1 (hna e.mint_a).2.2.2]
          exact hv2
        · intro mint hmint
          rw [takeFinal_tokenAccts_other p s taker maker mintA mintB escrowAddr e0 v _
            (hna mint).1 (hna mint).2.1 (hna mint).2.2.1 (hna mint).2.2.2]
          exact hoth2 mint hmint
    · intro mk sd mint hnone
      by_cases hx : Pubkey.derived mk sd = escrowAddr
      · by_cases hmint : mint = e0.mint_a
        · rw [hx, hmint, ha]
          exact takeFinal_vault_closed p s taker maker mintA mintB escrowAddr e0 v
        · rw [hx]
          rw [takeFinal_tokenAccts_other p s taker maker mintA mintB escrowAddr e0 v _
            (fun hc => isUser_ne_derived hu e0.maker e0.seed
              ((congrArg Prod.fst hc).symm.trans haddr0))
            (fun hc => isUser_ne_derived hu e0.maker e0.seed
              ((congrArg Prod.fst hc).symm.trans haddr0))
            (fun hc => isUser_ne_derived hmaker_user e0.maker e0.seed
              ((congrArg Prod.fst hc).symm.trans haddr0))
            (fun hc => hmint (ha ▸ congrArg Prod.snd hc))]
          exact hoth0 mint hmint
      · rw [takeFinal_escrows_other p s taker maker mintA mintB escrowAddr e0 v _ hx]
          at hnone
        rw [takeFinal_tokenAccts_other p s taker maker mintA mintB escrowAddr e0 v _
          (fun hc => isUser_ne_derived hu mk sd (congrArg Prod.fst hc).symm)
          (fun hc => isUser_ne_derived hu mk sd (congrArg Prod.fst hc).symm)
          (fun hc => isUser_ne_derived hmaker_user mk sd (congrArg Prod.fst hc).symm)
          (fun hc => hx (congrArg Prod.fst hc))]
        exact ih.2 mk sd mint hnone
  | step_refund s g caller mintA escrowAddr s' h hs ih =>
    rw [refund_ok_iff] at hs
    obtain ⟨e0, v, m1, hu, _, he0, hma, hmk, hseed, hv0, _, _, rfl⟩ := hs
    obtain ⟨hmu, haddr0, _, hoth0⟩ := ih.1 escrowAddr e0 he0
    constructor
    · intro addr e he
      by_cases hx : addr = escrowAddr
      · rw [hx, refundFinal_escrows_at] at he
        exact Option.noConfusion he
      · rw [refundFinal_escrows_other p s caller mintA escrowAddr v _ hx] at he
        obtain ⟨hu2, haddr2, ⟨d2, hg2, hv2⟩, hoth2⟩ := ih.1 addr e he
        have hna : ∀ mint : Pubkey,
            ((addr, mint) : Pubkey × Pubkey) ≠ (escrowAddr, mintA) ∧
            (addr, mint) ≠ (caller, mintA) := by
          intro mint
          exact ⟨fun hc => hx (congrArg Prod.fst hc),
            fun hc => isUser_ne_derived hu e.maker e.seed
              ((congrArg Prod.fst hc).symm.trans haddr2)⟩
        refine ⟨hu2, haddr2, ⟨d2, ?_, ?_⟩, ?_⟩
        · rw [fupd_other _ _ _ _ hx]
          exact hg2
        · rw [refundFinal_tokenAccts_other p s caller mintA escrowAddr v _
            (hna e.mint_a).1 (hna e.mint_a).2]
          exact hv2
        · intro mint hmint
          rw [refundFinal_tokenAccts_other p s caller mintA escrowAddr v _
            (hna mint).1 (hna mint).2]
          exact hoth2 mint hmint
    · intro mk sd mint hnone
      by_cases hx : Pubkey.derived mk sd = escrowAddr
      · by_cases hmint : mint = e0.mint_a
        · rw [hx, hmint, hma]
          exact refundFinal_vault_closed p s caller mintA escrowAddr v
        · rw [hx]
          rw [refundFinal_tokenAccts_other p s caller mintA escrowAddr v _
            (fun hc => hmint (hma ▸ congrArg Prod.snd hc))
            (fun hc => isUser_ne_derived hu e0.maker e0.seed
              ((congrArg Prod.fst hc).symm.trans haddr0))]
          exact hoth0 mint hmint
      · rw [refundFinal_escrows_other p s caller mintA escrowAddr v _ hx] at hnone
        rw [refundFinal_tokenAccts_other p s caller mintA escrowAddr v _
          (fun hc => hx (congrArg Prod.fst hc))
          (fun hc => isUser_ne_derived hu mk sd (congrArg Prod.fst hc).symm)]
        exact ih.2 mk sd mint hnone

/-- Witness for C8: from a pristine concrete chain, one `make` step reaches
a state in which the recorded escrow's vault exists and holds exactly the
opened deposit (100), as the pairing invariant demands. -/
theorem escrow_vault_pairing_witness :
    ∃ s1, make pW
        ⟨fun _ => none,
         fun k => if k.2 = tokA ∧ k.1 = uM then some 1000 else none,
         fun _ => 50⟩
        uM tokA tokB 3 100 50 = .ok s1 ∧
      s1.tokenAccts (deriveEscrowAddr uM 3, tokA) = some 100 := by
  cases hmk : make pW
      ⟨fun _ => none,
       fun k => if k.2 = tokA ∧ k.1 = uM then some 1000 else none,
       fun _ => 50⟩
      uM tokA tokB 3 100 50 with
  | error er =>
    have hok : (make pW
        ⟨fun _ => none,
         fun k => if k.2 = tokA ∧ k.1 = uM then some 1000 else none,
         fun _ => 50⟩
        uM tokA tokB 3 100 50).isOk = true := by decide
    rw [hmk] at hok
    exact Bool.noConfusion hok
  | ok s1 =>
    have hini : InitChain
        ⟨fun _ => none,
         fun k => if k.2 = tokA ∧ k.1 = uM then some 1000 else none,
         fun _ => 50⟩ := by
      refine ⟨fun a => rfl, fun mk sd mint => ?_⟩
      by_cases hm : mint = tokA
      · subst hm
        simp [Chain.tokenAccts]
        intro hc
        exact absurd hc.symm (Pubkey.noConfusion)
      · simp [Chain.tokenAccts, hm]
    have hr : Reach pW s1 (fupd (fun _ => none) (deriveEscrowAddr uM 3) (some 100)) :=
      Reach.step_make _ _ uM tokA tokB 3 100 50 s1 (Reach.init _ hini) hmk
    have hrec : s1.escrows (deriveEscrowAddr uM 3) =
        some ⟨3, uM, tokA, tokB, 50, canonicalBump⟩ := by
      have h2 : (make pW
          ⟨fun _ => none,
           fun k => if k.2 = tokA ∧ k.1 = uM then some 1000 else none,
           fun _ => 50⟩
          uM tokA tokB 3 100 50).map
            (fun s => s.escrows (deriveEscrowAddr uM 3)) =
          .ok (some ⟨3, uM, tokA, tokB, 50, canonicalBump⟩) := by decide
      rw [hmk] at h2
      simpa [Except.map] using h2
    obtain ⟨d, hd, hvlt⟩ :=
      ((escrow_vault_pairing pW s1 _ hr).1 (deriveEscrowAddr uM 3)
        ⟨3, uM, tokA, tokB, 50, canonicalBump⟩ hrec).2.2.1
    have hd100 : d = 100 := by
      rw [fupd_same] at hd
      exact (Option.some.inj hd).symm
    exact ⟨s1, rfl, hd100 ▸ hvlt⟩
